import Mathlib

set_option maxHeartbeats 1600000
set_option linter.unusedVariables false
set_option linter.unnecessarySeqFocus false

/-!
Verification of the resource-record codec and DNS synthesizer in
src/lib/covenants/record.js.

Bytes are modelled as natural numbers, JS strings as lists of byte values
(`Str`).  The buffered reader/writer is the external bufio library (bcoin
family): its unsuffixed `writeU16`/`readU16`/`writeU32`/`readU32` are
little-endian and the `BE`-suffixed variants are big-endian; readers are
modelled as functions from a byte list to an optional value paired with the
remaining bytes, a thrown assertion or read error being `none`.

The string compressor (lib/covenants/compress.js) is not part of the sources,
so it is modelled from the spec (section 4.1): a symbol table of strings in
insertion order, emitted as a length-prefixed symbol section, with each
compressed string written either as a reference to a table index or as an
inline literal, the reader being the exact inverse.
-/

namespace Hsk

abbrev Str := List Nat

def strBytes (s : String) : Str := s.data.map Char.toNat

/-- Record type tags (the `rtypes` table in record.js). -/
def rtINET4 : Nat := 1
def rtINET6 : Nat := 2
def rtONION : Nat := 3
def rtONIONNG : Nat := 5
def rtINAME : Nat := 6
def rtHNAME : Nat := 7
def rtCANONICAL : Nat := 8
def rtDELEGATE : Nat := 9
def rtNS : Nat := 10
def rtSERVICE : Nat := 11
def rtURL : Nat := 12
def rtEMAIL : Nat := 13
def rtTEXT : Nat := 14
def rtLOCATION : Nat := 15
def rtMAGNET : Nat := 16
def rtDS : Nat := 17
def rtTLS : Nat := 18
def rtSSH : Nat := 19
def rtPGP : Nat := 20
def rtADDR : Nat := 21

/-- The 21 known top-level tag values (note that 4 is unused and thus unknown). -/
def knownTags : List Nat :=
  [1, 2, 3, 5, 6, 7, 8, 9, 10, 11, 12, 13, 14, 15, 16, 17, 18, 19, 20, 21]

/-! ### bufio model -/

def writeU16LE (v : Nat) : List Nat := [v % 256, v / 256 % 256]

def writeU32LE (v : Nat) : List Nat :=
  [v % 256, v / 256 % 256, v / 65536 % 256, v / 16777216 % 256]

def readU16LE : List Nat → Option (Nat × List Nat)
  | a :: b :: rest => some (a + 256 * b, rest)
  | _ => none

def readU16BE : List Nat → Option (Nat × List Nat)
  | a :: b :: rest => some (256 * a + b, rest)
  | _ => none

def readU32LE : List Nat → Option (Nat × List Nat)
  | a :: b :: c :: d :: rest =>
      some (a + 256 * b + 65536 * c + 16777216 * d, rest)
  | _ => none

def readBytesN (n : Nat) (bs : List Nat) : Option (List Nat × List Nat) :=
  if n ≤ bs.length then some (bs.take n, bs.drop n) else none

/-! ### String compressor (modelled from the spec, with the documented
reader/writer inverse contract) -/

/-- Modelled from the spec: `Compressor.add` assigns each new string an index
in insertion order; duplicates do not add entries. -/
def cadd (t : List Str) (s : Str) : List Str := if s ∈ t then t else t ++ [s]

def lookupIdx : List Str → Str → Option Nat
  | [], _ => none
  | x :: xs, s => if x = s then some 0 else (lookupIdx xs s).map (· + 1)

/-- Modelled from the spec: `Compressor.write` emits either a reference to a
table index or an inline literal, discriminated by a leading byte. -/
def cwrite (t : List Str) (s : Str) : List Nat :=
  match lookupIdx t s with
  | some i => [0, i]
  | none => 1 :: s.length :: s

/-- Modelled from the spec: `Decompressor.read`, the inverse of `cwrite`. -/
def dread (t : List Str) : List Nat → Option (Str × List Nat)
  | 0 :: i :: rest => (t[i]?).map fun s => (s, rest)
  | 1 :: len :: rest =>
      if len ≤ rest.length then some (rest.take len, rest.drop len) else none
  | _ => none

/-- Modelled from the spec: the table is written as a length-prefixed symbol
section at the start of the record body. -/
def tableWrite (t : List Str) : List Nat :=
  t.length :: t.flatMap fun s => s.length :: s

def readSymbols : Nat → List Nat → Option (List Str × List Nat)
  | 0, bs => some ([], bs)
  | n + 1, len :: bs =>
      if len ≤ bs.length then
        (readSymbols n (bs.drop len)).map fun p => (bs.take len :: p.1, p.2)
      else none
  | _ + 1, [] => none

/-- Modelled from the spec: `Decompressor.fromReader`, the inverse of
`tableWrite`. -/
def tableRead : List Nat → Option (List Str × List Nat)
  | c :: rest => readSymbols c rest
  | [] => none

/-! ### IPv6 compression (`ipSize`/`ipWrite`/`ipRead`, modelled from the spec:
a run-of-zero-bytes encoding; here the first run of zero bytes is elided and
replaced by its start offset and length) -/

def zeroRunStart (bs : List Nat) : Nat := bs.findIdx fun b => b == 0

def zeroRunLen (bs : List Nat) : Nat :=
  ((bs.drop (zeroRunStart bs)).takeWhile fun b => b == 0).length

def ipWrite (bs : List Nat) : List Nat :=
  zeroRunStart bs :: zeroRunLen bs ::
    (bs.take (zeroRunStart bs) ++ bs.drop (zeroRunStart bs + zeroRunLen bs))

def ipRead : List Nat → Option (List Nat × List Nat)
  | s :: l :: rest =>
      if s + l ≤ 16 then
        (readBytesN s rest).bind fun pre =>
          (readBytesN (16 - s - l) pre.2).map fun post =>
            (pre.1 ++ List.replicate l 0 ++ post.1, post.2)
      else none
  | _ => none

/-! ### Target

The source stores a `Target` as a `{type, target}` pair where `target` is a
normalized human string produced by the external binet/bstring libraries
(IPv4 dotted quad, IPv6 text, onion v2/v3 text) or a name string carrying the
`.i`/`.h` suffix.  The external string forms are bijective with the raw bytes
they encode, so the embedding stores the semantic payload: raw address/key
bytes for the IP/onion kinds, and the suffix-less name for the name kinds. -/

inductive Target where
  | inet4 (addr : List Nat)
  | inet6 (addr : List Nat)
  | onion (key : List Nat)
  | onionng (key : List Nat)
  | iname (name : Str)
  | hname (name : Str)
  deriving DecidableEq

def Target.typeByte : Target → Nat
  | .inet4 _ => rtINET4
  | .inet6 _ => rtINET6
  | .onion _ => rtONION
  | .onionng _ => rtONIONNG
  | .iname _ => rtINAME
  | .hname _ => rtHNAME

def Target.isName : Target → Bool
  | .iname _ => true
  | .hname _ => true
  | _ => false

def Target.isINET : Target → Bool
  | .inet4 _ => true
  | .inet6 _ => true
  | _ => false

def Target.isINET4 : Target → Bool
  | .inet4 _ => true
  | _ => false

def Target.isTor : Target → Bool
  | .onion _ => true
  | .onionng _ => true
  | _ => false

def Target.isHostKind : Target → Bool
  | .inet4 _ => true
  | .inet6 _ => true
  | .onion _ => true
  | .onionng _ => true
  | _ => false

/-- `writeTarget` (record.js): the body of a target, without the kind byte. -/
def targetBody (tab : List Str) : Target → List Nat
  | .inet4 a => a
  | .inet6 a => ipWrite a
  | .onion k => k
  | .onionng k => k
  | .iname n => cwrite tab n
  | .hname n => cwrite tab n

/-- `Target.toWriter`: the kind byte followed by the body. -/
def targetWrite (tab : List Str) (t : Target) : List Nat :=
  t.typeByte :: targetBody tab t

/-- `readTarget` (record.js), dispatching on an already-read kind byte. -/
def readTargetBody (tab : List Str) (ty : Nat) (bs : List Nat) :
    Option (Target × List Nat) :=
  if ty = rtINET4 then (readBytesN 4 bs).map fun p => (.inet4 p.1, p.2)
  else if ty = rtINET6 then (ipRead bs).map fun p => (.inet6 p.1, p.2)
  else if ty = rtONION then (readBytesN 10 bs).map fun p => (.onion p.1, p.2)
  else if ty = rtONIONNG then (readBytesN 33 bs).map fun p => (.onionng p.1, p.2)
  else if ty = rtINAME then (dread tab bs).map fun p => (.iname p.1, p.2)
  else if ty = rtHNAME then (dread tab bs).map fun p => (.hname p.1, p.2)
  else none

/-- `Target.fromReader`: reads the kind byte, then the body. -/
def readTargetFull (tab : List Str) : List Nat → Option (Target × List Nat)
  | ty :: rest => readTargetBody tab ty rest
  | [] => none

/-- `compressTarget`: only name kinds add their (suffix-stripped) string. -/
def targetAdd (t : List Str) : Target → List Str
  | .iname n => cadd t n
  | .hname n => cadd t n
  | _ => t

/-! ### Leaf record types -/

structure Extra where
  type : Nat
  data : List Nat
  deriving DecidableEq

/-- `Extra.toWriter`: type byte, u8 length, data. -/
def extraWrite (e : Extra) : List Nat := e.type :: e.data.length :: e.data

/-- `Extra.fromReader`: type byte, u8 length, data. -/
def extraRead : List Nat → Option (Extra × List Nat)
  | ty :: len :: rest =>
      (readBytesN len rest).map fun p => (⟨ty, p.1⟩, p.2)
  | _ => none

structure SSH where
  algorithm : Nat
  type : Nat
  fingerprint : List Nat
  deriving DecidableEq

/-- `SSH.toWriter` (also used by `PGP`, which is wire-identical). -/
def sshWrite (s : SSH) : List Nat :=
  s.algorithm :: s.type :: s.fingerprint.length :: s.fingerprint

def sshRead : List Nat → Option (SSH × List Nat)
  | a :: t :: len :: rest =>
      (readBytesN len rest).map fun p => (⟨a, t, p.1⟩, p.2)
  | _ => none

structure TLS where
  protocol : Str
  port : Nat
  usage : Nat
  selector : Nat
  matchingType : Nat
  certificate : List Nat
  deriving DecidableEq

/-- `TLS.toWriter`: compressed protocol, u16le port, usage, selector,
matching type, u8 length, certificate. -/
def tlsWrite (tab : List Str) (t : TLS) : List Nat :=
  cwrite tab t.protocol ++ writeU16LE t.port ++
    t.usage :: t.selector :: t.matchingType :: t.certificate.length ::
      t.certificate

def tlsRead (tab : List Str) (bs : List Nat) : Option (TLS × List Nat) :=
  (dread tab bs).bind fun proto =>
    (readU16LE proto.2).bind fun port =>
      match port.2 with
      | u :: s :: m :: len :: rest =>
          (readBytesN len rest).map fun p =>
            (⟨proto.1, port.1, u, s, m, p.1⟩, p.2)
      | _ => none

structure DS where
  keyTag : Nat
  algorithm : Nat
  digestType : Nat
  digest : List Nat
  deriving DecidableEq

/-- `DS.toWriter`: `bw.writeU16(keyTag)` is little-endian. -/
def dsWrite (d : DS) : List Nat :=
  writeU16LE d.keyTag ++
    d.algorithm :: d.digestType :: d.digest.length :: d.digest

/-- `DS.fromReader`: `br.readU16BE()` is big-endian, unlike the writer. -/
def dsRead (bs : List Nat) : Option (DS × List Nat) :=
  (readU16BE bs).bind fun tag =>
    match tag.2 with
    | a :: dt :: len :: rest =>
        (readBytesN len rest).map fun p => (⟨tag.1, a, dt, p.1⟩, p.2)
    | _ => none

/-- The keyTag value produced by writing little-endian and reading big-endian
(for keyTag < 65536). -/
def dsSwap (d : DS) : DS :=
  { d with keyTag := d.keyTag % 256 * 256 + d.keyTag / 256 }

structure Magnet where
  nid : Str
  nin : List Nat
  deriving DecidableEq

/-- `Magnet.toWriter`: compressed nid, u8 byte count, then the bytes of the
`nin` hex string (the JS `nin` hex text is modelled by its byte content). -/
def magnetWrite (tab : List Str) (m : Magnet) : List Nat :=
  cwrite tab m.nid ++ m.nin.length :: m.nin

def magnetRead (tab : List Str) (bs : List Nat) : Option (Magnet × List Nat) :=
  (dread tab bs).bind fun nid =>
    match nid.2 with
    | len :: rest => (readBytesN len rest).map fun p => (⟨nid.1, p.1⟩, p.2)
    | _ => none

structure Location where
  version : Nat
  size : Nat
  horizPre : Nat
  vertPre : Nat
  latitude : Nat
  longitude : Nat
  altitude : Nat
  deriving DecidableEq

def locationWrite (l : Location) : List Nat :=
  l.version :: l.size :: l.horizPre :: l.vertPre ::
    (writeU32LE l.latitude ++ writeU32LE l.longitude ++ writeU32LE l.altitude)

def locationRead (bs : List Nat) : Option (Location × List Nat) :=
  match bs with
  | v :: s :: h :: vp :: rest =>
      (readU32LE rest).bind fun la =>
        (readU32LE la.2).bind fun lo =>
          (readU32LE lo.2).map fun al =>
            (⟨v, s, h, vp, la.1, lo.1, al.1⟩, al.2)
  | _ => none

structure Addr where
  currency : Str
  address : Str
  deriving DecidableEq

def hskStr : Str := strBytes "hsk"

/-- Modelled from the spec: the external address-encoding library
(`Address.fromString`/`Address.toString`), a bijection between bech32-style
address strings and a (testnet, version, hash) triple; testnet strings start
with the character `t` and mainnet strings with another character, matching
the source's `this.address[0] === 't'` test. -/
def hskAddrStr (test : Bool) (version : Nat) (hash : List Nat) : Str :=
  (if test then 116 else 109) :: version :: hash

/-- Modelled from the spec: the inverse of `hskAddrStr`. -/
def parseHskAddr : Str → Option (Bool × Nat × List Nat)
  | c :: v :: h =>
      if c = 116 then some (true, v, h)
      else if c = 109 then some (false, v, h) else none
  | _ => none

/-- `Addr.toWriter`.  In the native branch the flag byte is
`0x80 | (testnet ? 0x40 : 0) | hash.length`; since the three bit fields are
disjoint (hash.length ≤ 0x3f) the bitwise or is written as a sum. -/
def addrWrite (tab : List Str) (a : Addr) : List Nat :=
  if a.currency = hskStr then
    match parseHskAddr a.address with
    | some (test, version, hash) =>
        (128 + (if test then 64 else 0) + hash.length) :: version :: hash
    | none => []
  else
    cwrite tab a.currency ++ a.address.length :: a.address

/-- `Addr.fromReader`.  Note the source reads a flag byte first in every case,
although the non-native writer path never wrote one; the flag tests
`len & 0x80` and `len & 0x40` and the mask `len & 0x3f` are written
arithmetically. -/
def addrRead (tab : List Str) : List Nat → Option (Addr × List Nat)
  | len :: rest =>
      if 128 ≤ len % 256 then
        let test := 64 ≤ len % 128
        match rest with
        | version :: rest2 =>
            (readBytesN (len % 64) rest2).map fun p =>
              (⟨hskStr, hskAddrStr test version p.1⟩, p.2)
        | [] => none
      else
        (dread tab rest).bind fun cur =>
          match cur.2 with
          | alen :: rest2 =>
              (readBytesN alen rest2).map fun p => (⟨cur.1, p.1⟩, p.2)
          | [] => none
  | [] => none

structure Service where
  service : Str
  protocol : Str
  priority : Nat
  weight : Nat
  target : Target
  port : Nat
  deriving DecidableEq

def Service.isSMTP (s : Service) : Bool :=
  s.service = strBytes "smtp" ∧ s.protocol = strBytes "tcp"

/-- `Service.toWriter`: compressed service and protocol, priority, weight,
full target (kind byte and body), u16le port. -/
def serviceWrite (tab : List Str) (s : Service) : List Nat :=
  cwrite tab s.service ++ cwrite tab s.protocol ++
    s.priority :: s.weight ::
      (targetWrite tab s.target ++ writeU16LE s.port)

def serviceRead (tab : List Str) (bs : List Nat) : Option (Service × List Nat) :=
  (dread tab bs).bind fun sv =>
    (dread tab sv.2).bind fun proto =>
      match proto.2 with
      | pr :: w :: rest =>
          (readTargetFull tab rest).bind fun tg =>
            (readU16LE tg.2).map fun port =>
              (⟨sv.1, proto.1, pr, w, tg.1, port.1⟩, port.2)
      | _ => none

/-! ### The record aggregate -/

structure HSKRecord where
  version : Nat := 0
  ttl : Nat := 0
  hosts : List Target := []
  canonical : Option Target := none
  delegate : Option Target := none
  ns : List Target := []
  service : List Service := []
  url : List Str := []
  email : List Str := []
  text : List Str := []
  location : List Location := []
  magnet : List Magnet := []
  ds : List DS := []
  tls : List TLS := []
  ssh : List SSH := []
  pgp : List SSH := []
  addr : List Addr := []
  extra : List Extra := []
  deriving DecidableEq

def emptyRecord : HSKRecord := {}

/-- `HSKRecord.compress`: the learn phase, visiting fields in source order.
`Service.compress` adds only the service and protocol strings (not the
target), and `Addr.compress` adds the currency even in the native case. -/
def compressRecord (r : HSKRecord) : List Str :=
  let t := r.hosts.foldl targetAdd []
  let t := match r.canonical with | some x => targetAdd t x | none => t
  let t := match r.delegate with | some x => targetAdd t x | none => t
  let t := r.ns.foldl targetAdd t
  let t := r.service.foldl (fun t s => cadd (cadd t s.service) s.protocol) t
  let t := r.url.foldl cadd t
  let t := r.email.foldl cadd t
  let t := r.text.foldl cadd t
  let t := r.magnet.foldl (fun t m => cadd t m.nid) t
  let t := r.tls.foldl (fun t x => cadd t x.protocol) t
  let t := r.addr.foldl (fun t a => cadd t a.currency) t
  t

/-- The canonical/delegate item of `HSKRecord.toWriter`: a tag byte and a
full target when present, nothing when null. -/
def optSeg (tab : List Str) (tag : Nat) : Option Target → List Nat
  | some t => tag :: targetWrite tab t
  | none => []

/-- The tag-prefixed field items of `HSKRecord.toWriter`, in source order.
Hosts carry no separate tag byte: the target's own kind byte serves as the
tag.  The extra items write the type byte twice: once as the tag and once
inside `Extra.toWriter`. -/
def recordBody (tab : List Str) (r : HSKRecord) : List Nat :=
  (r.hosts.flatMap fun t => t.typeByte :: targetBody tab t) ++
  optSeg tab rtCANONICAL r.canonical ++
  optSeg tab rtDELEGATE r.delegate ++
  (r.ns.flatMap fun t => rtNS :: targetWrite tab t) ++
  (r.service.flatMap fun s => rtSERVICE :: serviceWrite tab s) ++
  (r.url.flatMap fun s => rtURL :: cwrite tab s) ++
  (r.email.flatMap fun s => rtEMAIL :: cwrite tab s) ++
  (r.text.flatMap fun s => rtTEXT :: cwrite tab s) ++
  (r.location.flatMap fun l => rtLOCATION :: locationWrite l) ++
  (r.magnet.flatMap fun m => rtMAGNET :: magnetWrite tab m) ++
  (r.ds.flatMap fun d => rtDS :: dsWrite d) ++
  (r.tls.flatMap fun x => rtTLS :: tlsWrite tab x) ++
  (r.ssh.flatMap fun x => rtSSH :: sshWrite x) ++
  (r.pgp.flatMap fun x => rtPGP :: sshWrite x) ++
  (r.addr.flatMap fun x => rtADDR :: addrWrite tab x) ++
  (r.extra.flatMap fun e => e.type :: extraWrite e)

/-- `HSKRecord.toWriter` via `toRaw`: version byte, `ttl >>> 6` as u16le,
symbol table, then the field items. -/
def encodeRecord (r : HSKRecord) : List Nat :=
  let tab := compressRecord r
  r.version :: (writeU16LE (r.ttl / 64) ++ tableWrite tab ++ recordBody tab r)

/-- One iteration of the `while (br.left())` switch in
`HSKRecord.fromReader`, after the tag byte has been read.  A failed
`assert` is `none`. -/
def stepRead (tab : List Str) (acc : HSKRecord) (ty : Nat) (bs : List Nat) :
    Option (HSKRecord × List Nat) :=
  if ty = rtINET4 ∨ ty = rtINET6 ∨ ty = rtONION ∨ ty = rtONIONNG then
    (readTargetBody tab ty bs).map fun p =>
      ({ acc with hosts := acc.hosts ++ [p.1] }, p.2)
  else if ty = rtINAME ∨ ty = rtHNAME then
    if acc.canonical.isSome then none
    else (readTargetBody tab ty bs).map fun p =>
      ({ acc with canonical := some p.1 }, p.2)
  else if ty = rtCANONICAL then
    if acc.canonical.isSome then none
    else (readTargetFull tab bs).map fun p =>
      ({ acc with canonical := some p.1 }, p.2)
  else if ty = rtDELEGATE then
    if acc.delegate.isSome then none
    else (readTargetFull tab bs).map fun p =>
      ({ acc with delegate := some p.1 }, p.2)
  else if ty = rtNS then
    (readTargetFull tab bs).map fun p =>
      ({ acc with ns := acc.ns ++ [p.1] }, p.2)
  else if ty = rtSERVICE then
    (serviceRead tab bs).map fun p =>
      ({ acc with service := acc.service ++ [p.1] }, p.2)
  else if ty = rtURL then
    (dread tab bs).map fun p => ({ acc with url := acc.url ++ [p.1] }, p.2)
  else if ty = rtEMAIL then
    (dread tab bs).map fun p => ({ acc with email := acc.email ++ [p.1] }, p.2)
  else if ty = rtTEXT then
    (dread tab bs).map fun p => ({ acc with text := acc.text ++ [p.1] }, p.2)
  else if ty = rtLOCATION then
    (locationRead bs).map fun p =>
      ({ acc with location := acc.location ++ [p.1] }, p.2)
  else if ty = rtMAGNET then
    (magnetRead tab bs).map fun p =>
      ({ acc with magnet := acc.magnet ++ [p.1] }, p.2)
  else if ty = rtDS then
    (dsRead bs).map fun p => ({ acc with ds := acc.ds ++ [p.1] }, p.2)
  else if ty = rtTLS then
    (tlsRead tab bs).map fun p => ({ acc with tls := acc.tls ++ [p.1] }, p.2)
  else if ty = rtSSH then
    (sshRead bs).map fun p => ({ acc with ssh := acc.ssh ++ [p.1] }, p.2)
  else if ty = rtPGP then
    (sshRead bs).map fun p => ({ acc with pgp := acc.pgp ++ [p.1] }, p.2)
  else if ty = rtADDR then
    (addrRead tab bs).map fun p => ({ acc with addr := acc.addr ++ [p.1] }, p.2)
  else
    (extraRead bs).map fun p => ({ acc with extra := acc.extra ++ [p.1] }, p.2)

/-- The `while (br.left())` loop of `HSKRecord.fromReader`; the fuel bounds
the number of iterations and is instantiated with the number of remaining
bytes (each iteration consumes at least the tag byte). -/
def loopRead : Nat → List Str → HSKRecord → List Nat → Option HSKRecord
  | _, _, acc, [] => some acc
  | 0, _, _, _ :: _ => none
  | fuel + 1, tab, acc, ty :: bs =>
      (stepRead tab acc ty bs).bind fun p => loopRead fuel tab p.1 p.2

/-- `HSKRecord.fromReader` on a full blob: version byte (must be 0),
`ttl = readU16() << 6`, symbol table, then the tag loop. -/
def decodeRecord (bs : List Nat) : Option HSKRecord :=
  match bs with
  | v :: rest =>
      if v = 0 then
        (readU16LE rest).bind fun t =>
          (tableRead t.2).bind fun tab =>
            loopRead tab.2.length tab.1 { emptyRecord with ttl := t.1 * 64 }
              tab.2
      else none
  | [] => none

/-! ### DNS names and helpers

DNS names are modelled as the source handles them: flat strings with dot
separators, fully-qualified names ending in a dot. -/

def dotChar : Nat := 46

def splitDots : Str → List Str
  | [] => [[]]
  | c :: rest =>
      if c = dotChar then [] :: splitDots rest
      else
        match splitDots rest with
        | l :: ls => (c :: l) :: ls
        | [] => [[c]]

/-- `util.isFQDN`: nonempty and ending in a dot. -/
def isFQDN (s : Str) : Bool := s.getLast? = some dotChar

/-- The labels of a name (`util.split` positions): for a fully-qualified name
the trailing empty piece is dropped. -/
def labelsOf (s : Str) : List Str :=
  if isFQDN s then (splitDots s).dropLast else splitDots s

def labelCount (s : Str) : Nat := (labelsOf s).length

/-- `util.from(name, labels, -1)`: the suffix of the name starting at the
last label, i.e. the leaf tld with its trailing dot. -/
def tldOf (s : Str) : Str := (labelsOf s).getLastD [] ++ [dotChar]

/-- Decimal digit characters of a natural number. -/
def decDigits (n : Nat) : List Nat :=
  if h : n < 10 then [48 + n]
  else decDigits (n / 10) ++ [48 + n % 10]
decreasing_by exact Nat.div_lt_self (by omega) (by omega)

/-- The base58 alphabet used by bstring. -/
def b58Alpha : Str :=
  strBytes "123456789ABCDEFGHJKLMNPQRSTUVWXYZabcdefghijkmnopqrstuvwxyz"

def b58Digits (n : Nat) : List Nat :=
  if n = 0 then [] else b58Digits (n / 58) ++ [b58Alpha.getD (n % 58) 49]
decreasing_by exact Nat.div_lt_self (by omega) (by omega)

/-- `base58.encode` on raw bytes: leading zero bytes become `1` characters,
the remainder is written big-endian in base 58. -/
def base58Enc (bs : List Nat) : Str :=
  let z := (bs.takeWhile fun b => b == 0).length
  let n := bs.foldl (fun acc b => acc * 256 + b) 0
  List.replicate z 49 ++ b58Digits n

/-- Dotted-quad text of four IPv4 bytes (`IP.encode`). -/
def ip4String (a : List Nat) : Str :=
  List.intercalate [dotChar] (a.map decDigits)

/-- The `target` string held by a source `Target` object.  IPv4 renders as a
dotted quad; the external normalized IPv6/onion text forms are bijective with
the raw bytes and are modelled by the byte content; name kinds carry their
`.i`/`.h` suffix. -/
def targetLiteral : Target → Str
  | .inet4 a => ip4String a
  | .inet6 a => a
  | .onion k => k
  | .onionng k => k
  | .iname n => n ++ strBytes ".i"
  | .hname n => n ++ strBytes ".h"

/-- The raw IP bytes of an INET target (`IP.decode(this.target)`). -/
def targetIPBytes : Target → List Nat
  | .inet4 a => a
  | .inet6 a => a
  | _ => []

/-- `Target.toDNS`: HSK names keep their `.h` suffix and gain a trailing dot,
ICANN names drop the `.i` suffix and gain a trailing dot, other kinds return
the target literal. -/
def targetToDNS : Target → Str
  | .iname n => n ++ [dotChar]
  | .hname n => n ++ strBytes ".h."
  | t => targetLiteral t

/-- `Target.toPointer`: `_<base58(ip)>.<name>`. -/
def toPointer (t : Target) (name : Str) : Str :=
  95 :: base58Enc (targetIPBytes t) ++ dotChar :: name

/-! ### DNS wire model -/

/-- DNS rdata for the record types the synthesizer emits. -/
inductive RData where
  | a (address : Str)
  | aaaa (address : Str)
  | ns (ns : Str)
  | mx (preference : Nat) (mx : Str)
  | soa (ns : Str) (mbox : Str) (serial refresh retry expire minttl : Nat)
  | cname (target : Str)
  | dname (target : Str)
  | srv (priority weight port : Nat) (target : Str)
  | txt (txt : List Str)
  | loc (version size horizPre vertPre latitude longitude altitude : Nat)
  | ds (keyTag algorithm digestType : Nat) (digest : List Nat)
  | tlsa (usage selector matchingType : Nat) (certificate : List Nat)
  | sshfp (algorithm type : Nat) (fingerprint : List Nat)
  | openpgpkey (publicKey : List Nat)
  deriving DecidableEq

/-- DNS record type codes from bns `wire.types`. -/
def tyA : Nat := 1
def tyNS : Nat := 2
def tyCNAME : Nat := 5
def tySOA : Nat := 6
def tyMX : Nat := 15
def tyTXT : Nat := 16
def tyAAAA : Nat := 28
def tyLOC : Nat := 29
def tySRV : Nat := 33
def tyDNAME : Nat := 39
def tyDS : Nat := 43
def tySSHFP : Nat := 44
def tyTLSA : Nat := 52
def tyOPENPGPKEY : Nat := 61
def tyANY : Nat := 255

structure DNSRecord where
  name : Str
  type : Nat
  ttl : Nat
  data : RData
  deriving DecidableEq

/-- The bns `Message` fields the synthesizer touches; `edns` is
`some (size, dnssec)` after `setEDNS0`. -/
structure Message where
  qr : Bool := false
  aa : Bool := false
  ad : Bool := false
  answer : List DNSRecord := []
  authority : List DNSRecord := []
  additional : List DNSRecord := []
  edns : Option (Nat × Bool) := none
  deriving DecidableEq

def rdNsName : RData → Str
  | .ns s => s
  | _ => []

def rdMxName : RData → Str
  | .mx _ s => s
  | _ => []

/-! ### DNS synthesizer (`HSKRecord.to*` methods) -/

def hasTor (r : HSKRecord) : Bool := r.hosts.any Target.isTor

def toTorTXT (r : HSKRecord) (name : Str) : DNSRecord :=
  ⟨name, tyTXT, r.ttl,
    .txt (strBytes "hsk:tor" ::
      r.hosts.filterMap fun h =>
        if h.isTor then some (targetLiteral h) else none)⟩

def toA (r : HSKRecord) (name : Str) : List DNSRecord :=
  (r.hosts.filterMap fun h =>
    match h with
    | .inet4 a => some ⟨name, tyA, r.ttl, .a (ip4String a)⟩
    | _ => none) ++
  (if hasTor r then [toTorTXT r name] else [])

def toAAAA (r : HSKRecord) (name : Str) : List DNSRecord :=
  (r.hosts.filterMap fun h =>
    match h with
    | .inet6 a => some ⟨name, tyAAAA, r.ttl, .aaaa (targetLiteral (.inet6 a))⟩
    | _ => none) ++
  (if hasTor r then [toTorTXT r name] else [])

/-- `HSKRecord.toCNAME`: empty when canonical is unset; otherwise the
source's `assert(this.canonical.isName())` throws for a non-name canonical
(modelled as `none`) and a single CNAME record is returned for a name
canonical. -/
def toCNAME (r : HSKRecord) (name : Str) : Option (List DNSRecord) :=
  match r.canonical with
  | none => some []
  | some t =>
      if t.isName then some [⟨name, tyCNAME, r.ttl, .cname (targetToDNS t)⟩]
      else none

/-- `HSKRecord.toDNAME`: empty when delegate is unset; otherwise the source's
`assert(this.delegate.isName())` throws for a non-name delegate (modelled as
`none`) and a single DNAME record is returned for a name delegate. -/
def toDNAME (r : HSKRecord) (name : Str) : Option (List DNSRecord) :=
  match r.delegate with
  | none => some []
  | some t =>
      if t.isName then some [⟨name, tyDNAME, r.ttl, .dname (targetToDNS t)⟩]
      else none

def toNS (r : HSKRecord) (name : Str) (naked : Bool) : List DNSRecord :=
  r.ns.filterMap fun t =>
    (if t.isName then some (targetToDNS t)
     else if naked && t.isINET then some (toPointer t name)
     else none).map fun nsname => ⟨name, tyNS, r.ttl, .ns nsname⟩

def toNSIP (r : HSKRecord) (name : Str) (naked : Bool) : List DNSRecord :=
  if !naked then []
  else
    r.ns.filterMap fun t =>
      if t.isINET then
        some ⟨toPointer t name, if t.isINET4 then tyA else tyAAAA, r.ttl,
          if t.isINET4 then .a (targetLiteral t) else .aaaa (targetLiteral t)⟩
      else none

def toMX (r : HSKRecord) (name : Str) (naked : Bool) : List DNSRecord :=
  r.service.filterMap fun srv =>
    if srv.isSMTP then
      (if srv.target.isName then some (targetToDNS srv.target)
       else if naked && srv.target.isINET then some (toPointer srv.target name)
       else none).map fun mxname =>
        ⟨name, tyMX, r.ttl, .mx srv.priority mxname⟩
    else none

/-- `HSKRecord.toSOA`: note the inner `toNS`/`toMX` calls pass no `naked`
argument, i.e. naked targets are skipped there. -/
def toSOA (r : HSKRecord) (name : Str) : List DNSRecord :=
  let tld := tldOf name
  let base : RData := .soa tld tld 0 1800 r.ttl 604800 86400
  let ns := toNS r tld false
  let withNs : RData :=
    match ns with
    | [] => base
    | rr :: _ =>
        match base with
        | .soa _ mb se re rt ex mi => .soa (rdNsName rr.data) mb se re rt ex mi
        | d => d
  let mx := toMX r tld false
  let withMx : RData :=
    match mx with
    | [] => withNs
    | rr :: _ =>
        match withNs with
        | .soa nsn _ se re rt ex mi => .soa nsn (rdMxName rr.data) se re rt ex mi
        | d => d
  [⟨tld, tySOA, r.ttl, withMx⟩]

def toSRV (r : HSKRecord) (name : Str) (naked : Bool) : List DNSRecord :=
  r.service.filterMap fun srv =>
    (if srv.target.isName then some (targetToDNS srv.target)
     else if naked && srv.target.isINET then some (toPointer srv.target name)
     else none).map fun target =>
      ⟨95 :: srv.service ++ dotChar :: 95 :: srv.protocol ++ dotChar :: name,
        tySRV, r.ttl, .srv srv.priority srv.weight srv.port target⟩

def toSRVIP (r : HSKRecord) (name : Str) (naked : Bool) (mx : Bool) :
    List DNSRecord :=
  if !naked then []
  else
    r.service.filterMap fun srv =>
      if mx && !srv.isSMTP then none
      else if srv.target.isINET then
        some ⟨toPointer srv.target name,
          if srv.target.isINET4 then tyA else tyAAAA, r.ttl,
          if srv.target.isINET4 then .a (targetLiteral srv.target)
          else .aaaa (targetLiteral srv.target)⟩
      else none

def toMXIP (r : HSKRecord) (name : Str) (naked : Bool) : List DNSRecord :=
  toSRVIP r name naked true

def toLOC (r : HSKRecord) (name : Str) : List DNSRecord :=
  r.location.map fun l =>
    ⟨name, tyLOC, r.ttl,
      .loc l.version l.size l.horizPre l.vertPre l.latitude l.longitude
        l.altitude⟩

def toDS (r : HSKRecord) (name : Str) : List DNSRecord :=
  r.ds.map fun d =>
    ⟨name, tyDS, r.ttl, .ds d.keyTag d.algorithm d.digestType d.digest⟩

def toTLSA (r : HSKRecord) (name : Str) : List DNSRecord :=
  r.tls.map fun t =>
    ⟨95 :: decDigits t.port ++ dotChar :: 95 :: t.protocol ++ dotChar :: name,
      tyTLSA, r.ttl, .tlsa t.usage t.selector t.matchingType t.certificate⟩

def toSSHFP (r : HSKRecord) (name : Str) : List DNSRecord :=
  r.ssh.map fun s =>
    ⟨name, tySSHFP, r.ttl, .sshfp s.algorithm s.type s.fingerprint⟩

def toOPENPGPKEY (r : HSKRecord) (name : Str) : List DNSRecord :=
  r.pgp.map fun p => ⟨name, tyOPENPGPKEY, r.ttl, .openpgpkey (sshWrite p)⟩

/-- Two hex digit characters per byte (lowercase), used by magnet URIs. -/
def hexRender (bs : List Nat) : Str :=
  bs.flatMap fun b =>
    [if b / 16 < 10 then 48 + b / 16 else 87 + b / 16,
     if b % 16 < 10 then 48 + b % 16 else 87 + b % 16]

/-- `Magnet.toString`: `magnet:?xt=urn:{nid}:{nin}`. -/
def magnetURI (m : Magnet) : Str :=
  strBytes "magnet:?xt=urn:" ++ m.nid ++ 58 :: hexRender m.nin

/-- `Addr.toString`: `{currency}:{address}`. -/
def addrString (a : Addr) : Str := a.currency ++ 58 :: a.address

def toTextTXT (r : HSKRecord) (name : Str) : DNSRecord :=
  ⟨name, tyTXT, r.ttl, .txt r.text⟩

def toURLTXT (r : HSKRecord) (name : Str) : DNSRecord :=
  ⟨name, tyTXT, r.ttl, .txt (strBytes "hsk:url" :: r.url)⟩

def toEmailTXT (r : HSKRecord) (name : Str) : DNSRecord :=
  ⟨name, tyTXT, r.ttl, .txt (strBytes "hsk:email" :: r.email)⟩

def toMagnetTXT (r : HSKRecord) (name : Str) : DNSRecord :=
  ⟨name, tyTXT, r.ttl, .txt (strBytes "hsk:magnet" :: r.magnet.map magnetURI)⟩

def toAddrTXT (r : HSKRecord) (name : Str) : DNSRecord :=
  ⟨name, tyTXT, r.ttl, .txt (strBytes "hsk:addr" :: r.addr.map addrString)⟩

def toTXT (r : HSKRecord) (name : Str) : List DNSRecord :=
  (if r.text.length > 0 then [toTextTXT r name] else []) ++
  (if r.url.length > 0 then [toURLTXT r name] else []) ++
  (if r.email.length > 0 then [toEmailTXT r name] else []) ++
  (if r.magnet.length > 0 then [toMagnetTXT r name] else []) ++
  (if r.addr.length > 0 then [toAddrTXT r name] else [])

/-- The answer section assigned by the one-label qtype switch of
`HSKRecord.toDNS`; `none` when the CNAME/DNAME branch hits a failed
`isName` assert. -/
def dispatchAnswer (r : HSKRecord) (name : Str) (qtype : Nat) (naked : Bool) :
    Option (List DNSRecord) :=
  if qtype = tyANY then some (toSOA r name ++ toNS r name naked)
  else if qtype = tyA then some (toA r name)
  else if qtype = tyAAAA then some (toAAAA r name)
  else if qtype = tyCNAME then toCNAME r name
  else if qtype = tyDNAME then toDNAME r name
  else if qtype = tyNS then some (toNS r name naked)
  else if qtype = tyMX then some (toMX r name naked)
  else if qtype = tySRV then some (toSRV r name naked)
  else if qtype = tyTXT then some (toTXT r name)
  else if qtype = tyLOC then some (toLOC r name)
  else if qtype = tyDS then some (toDS r name)
  else if qtype = tyTLSA then some (toTLSA r name)
  else if qtype = tyOPENPGPKEY then some (toOPENPGPKEY r name)
  else some []

/-- The additional section assigned by the one-label qtype switch of
`HSKRecord.toDNS`. -/
def dispatchAdditional (r : HSKRecord) (name : Str) (qtype : Nat)
    (naked : Bool) : List DNSRecord :=
  if qtype = tyANY then toNSIP r name naked
  else if qtype = tyNS then toNSIP r name naked
  else if qtype = tyMX then toMXIP r name naked
  else if qtype = tySRV then toSRVIP r name naked false
  else []

/-- `HSKRecord.toDNS`.  The `naked` parameter is accepted and then forcibly
overwritten with `true` (the `// XXX  naked = true;` lines); a failed
`assert(util.isFQDN(name))` is `none`, and the `isName` asserts inside
`toDNAME` (referral branch) and `toCNAME` (fallback) propagate as `none`. -/
def toDNS (r : HSKRecord) (name : Str) (qtype : Nat) (naked : Bool) :
    Option Message :=
  if !isFQDN name then none
  else
    let naked := true
    if labelCount name > 1 then
      let tld := tldOf name
      (if r.ns.length > 0 then some ([] : List DNSRecord)
       else if r.delegate.isSome then toDNAME r tld
       else some []).map fun ans =>
        { qr := true, ad := true, aa := false,
          answer := ans,
          authority :=
            (if r.ns.length > 0 then toNS r tld naked
             else if r.delegate.isSome then []
             else toSOA r tld) ++ toDS r tld,
          additional := if r.ns.length > 0 then toNSIP r tld naked else [],
          edns := some (4096, true) }
    else
      (dispatchAnswer r name qtype naked).bind fun ans =>
        (if ans.length = 0 then
           if r.canonical.isSome then toCNAME r name
           else some (toSOA r name)
         else some ans).map fun ans2 =>
          { qr := true, ad := true, aa := true,
            answer := ans2,
            authority := [],
            additional := dispatchAdditional r name qtype naked,
            edns := some (4096, true) }

/-! ### JSON model

JS JSON objects are modelled structurally: a field that may be absent is an
`Option`, hex strings are modelled by their byte content, and the
`Target`/`Addr`/`Magnet` string shapes are modelled by their parsed values
(the external string forms are bijective for valid data).  An `assert`
failure inside `fromJSON` is `none`. -/

structure SSHJSON where
  algorithm : Nat
  type : Nat
  fingerprint : List Nat
  deriving DecidableEq

def sshToJSON (s : SSH) : SSHJSON := ⟨s.algorithm, s.type, s.fingerprint⟩

/-- `SSH.fromJSON`.  The source's length check `(json.fingerprint >>> 1) <=
255` coerces the hex string itself to a number, yielding 0 or NaN, so it
never fails and is not modelled. -/
def sshFromJSON (j : SSHJSON) : Option SSH :=
  if j.algorithm < 256 ∧ j.type < 256 then some ⟨j.algorithm, j.type, j.fingerprint⟩
  else none

structure TLSJSON where
  protocol : Str
  port : Nat
  usage : Nat
  selector : Nat
  matchingType : Nat
  certificate : List Nat
  fingerprint : Option (List Nat)
  deriving DecidableEq

/-- `TLS.toJSON` emits `protocol`, `port`, `usage`, `selector`,
`matchingType` and `certificate` — and no `fingerprint` field. -/
def tlsToJSON (t : TLS) : TLSJSON :=
  ⟨t.protocol, t.port, t.usage, t.selector, t.matchingType, t.certificate,
    none⟩

/-- `TLS.fromJSON` asserts `typeof json.fingerprint === 'string'` (and a
length bound on it) even though `toJSON` writes the certificate under the key
`certificate`; a missing `fingerprint` therefore fails the assert. -/
def tlsFromJSON (j : TLSJSON) : Option TLS :=
  if j.protocol.length ≤ 255 ∧ j.port < 65536 ∧ j.usage < 256 ∧
      j.selector < 256 ∧ j.matchingType < 256 then
    match j.fingerprint with
    | none => none
    | some fp =>
        if fp.length ≤ 255 then
          some ⟨j.protocol, j.port, j.usage, j.selector, j.matchingType,
            j.certificate⟩
        else none
  else none

structure DSJSON where
  keyTag : Nat
  algorithm : Nat
  digestType : Nat
  digest : List Nat
  deriving DecidableEq

def dsToJSON (d : DS) : DSJSON := ⟨d.keyTag, d.algorithm, d.digestType, d.digest⟩

def dsFromJSON (j : DSJSON) : Option DS :=
  if j.keyTag < 65536 ∧ j.algorithm < 256 ∧ j.digestType < 256 ∧
      j.digest.length ≤ 255 then
    some ⟨j.keyTag, j.algorithm, j.digestType, j.digest⟩
  else none

structure ExtraJSON where
  type : Nat
  data : List Nat
  deriving DecidableEq

def extraToJSON (e : Extra) : ExtraJSON := ⟨e.type, e.data⟩

/-- `Extra.fromJSON`; its length check also coerces the hex string itself and
never fails. -/
def extraFromJSON (j : ExtraJSON) : Option Extra :=
  if j.type < 256 then some ⟨j.type, j.data⟩ else none

structure ServiceJSON where
  service : Option Str
  protocol : Option Str
  priority : Option Nat
  weight : Option Nat
  target : Option Target
  port : Option Nat
  deriving DecidableEq

def serviceToJSON (s : Service) : ServiceJSON :=
  ⟨some s.service, some s.protocol, some s.priority, some s.weight,
    some s.target, some s.port⟩

/-- `Service.fromJSON`: each field is applied only when present. -/
def serviceFromJSON (j : ServiceJSON) : Option Service :=
  let base : Service := ⟨[], [], 0, 0, .inet4 [0, 0, 0, 0], 0⟩
  let s := { base with service := j.service.getD base.service,
                       protocol := j.protocol.getD base.protocol,
                       target := j.target.getD base.target }
  match j.priority, j.weight, j.port with
  | pr, w, po =>
      if (pr.getD 0) < 256 ∧ (w.getD 0) < 256 ∧ (po.getD 0) < 65536 then
        some { s with priority := pr.getD 0, weight := w.getD 0,
                      port := po.getD 0 }
      else none

structure LocationJSON where
  version : Option Nat
  size : Option Nat
  horizPre : Option Nat
  vertPre : Option Nat
  latitude : Option Nat
  longitude : Option Nat
  altitude : Option Nat
  deriving DecidableEq

def locationToJSON (l : Location) : LocationJSON :=
  ⟨some l.version, some l.size, some l.horizPre, some l.vertPre,
    some l.latitude, some l.longitude, some l.altitude⟩

def locationFromJSON (j : LocationJSON) : Option Location :=
  if (j.version.getD 0) < 256 ∧ (j.size.getD 0) < 256 ∧
      (j.horizPre.getD 0) < 256 ∧ (j.vertPre.getD 0) < 256 ∧
      (j.latitude.getD 0) < 4294967296 ∧ (j.longitude.getD 0) < 4294967296 ∧
      (j.altitude.getD 0) < 4294967296 then
    some ⟨j.version.getD 0, j.size.getD 0, j.horizPre.getD 0, j.vertPre.getD 0,
      j.latitude.getD 0, j.longitude.getD 0, j.altitude.getD 0⟩
  else none

/-- `Magnet.toJSON`/`Addr.toJSON` produce `magnet:?xt=urn:nid:nin` and
`currency:address` strings; their `fromJSON` parse those back.  The string
forms are bijective for valid values, so the JSON value is modelled by the
pair itself and the parse by the corresponding validity checks. -/
def magnetFromJSON (m : Magnet) : Option Magnet :=
  if m.nid.length ≤ 255 ∧ (hexRender m.nin).length ≤ 255 then some m else none

def addrFromJSON (a : Addr) : Option Addr :=
  if a.currency.length ≤ 63 ∧ a.address.length ≤ 255 then some a else none

structure RecordJSON where
  version : Option Nat
  name : Option Str
  ttl : Option Nat
  hosts : Option (List Target)
  canonical : Option Target
  delegate : Option Target
  ns : Option (List Target)
  service : Option (List ServiceJSON)
  url : Option (List Str)
  email : Option (List Str)
  text : Option (List Str)
  location : Option (List LocationJSON)
  magnet : Option (List Magnet)
  ds : Option (List DSJSON)
  tls : Option (List TLSJSON)
  ssh : Option (List SSHJSON)
  pgp : Option (List SSHJSON)
  addr : Option (List Addr)
  extra : Option (List ExtraJSON)
  deriving DecidableEq

def listOpt {α β : Type} (f : α → β) (l : List α) : Option (List β) :=
  if l.length > 0 then some (l.map f) else none

/-- `HSKRecord.toJSON`: version, name and ttl always; arrays only when
non-empty; canonical/delegate only when set.  (The source writes the `pgp`
array twice; the second object assignment overwrites the first with the same
value, so the JSON value is unchanged.) -/
def recordToJSON (r : HSKRecord) (name : Str) : RecordJSON :=
  { version := some r.version, name := some name, ttl := some r.ttl,
    hosts := listOpt id r.hosts,
    canonical := r.canonical, delegate := r.delegate,
    ns := listOpt id r.ns,
    service := listOpt serviceToJSON r.service,
    url := listOpt id r.url, email := listOpt id r.email,
    text := listOpt id r.text,
    location := listOpt locationToJSON r.location,
    magnet := listOpt id r.magnet,
    ds := listOpt dsToJSON r.ds,
    tls := listOpt tlsToJSON r.tls,
    ssh := listOpt sshToJSON r.ssh, pgp := listOpt sshToJSON r.pgp,
    addr := listOpt id r.addr,
    extra := listOpt extraToJSON r.extra }

def optList {α β : Type} (f : α → Option β) : Option (List α) → Option (List β)
  | none => some []
  | some l => l.mapM f

def strListOk (l : List Str) : Bool := l.all fun s => s.length ≤ 255

/-- `HSKRecord.fromJSON`: each present field is validated and appended; the
`name` field is ignored. -/
def recordFromJSON (j : RecordJSON) : Option HSKRecord :=
  if j.version.getD 0 = 0 ∧ (j.ttl.getD 0) < 4294967296 then
    (optList some j.hosts).bind fun hosts =>
      (optList serviceFromJSON j.service).bind fun service =>
        if strListOk (j.url.getD []) ∧ strListOk (j.email.getD []) ∧
            strListOk (j.text.getD []) then
          (optList locationFromJSON j.location).bind fun location =>
            (optList magnetFromJSON j.magnet).bind fun magnet =>
              (optList dsFromJSON j.ds).bind fun ds =>
                (optList tlsFromJSON j.tls).bind fun tls =>
                  (optList sshFromJSON j.ssh).bind fun ssh =>
                    (optList sshFromJSON j.pgp).bind fun pgp =>
                      (optList addrFromJSON j.addr).bind fun addr =>
                        (optList extraFromJSON j.extra).map fun extra =>
                          { version := j.version.getD 0, ttl := j.ttl.getD 0,
                            hosts := hosts,
                            canonical := j.canonical,
                            delegate := j.delegate,
                            ns := (j.ns.getD []),
                            service := service,
                            url := j.url.getD [], email := j.email.getD [],
                            text := j.text.getD [],
                            location := location, magnet := magnet, ds := ds,
                            tls := tls, ssh := ssh, pgp := pgp, addr := addr,
                            extra := extra }
        else none
  else none

/-! ### Validity

The validity notion of the spec (section 3 invariants and section 8), as a
decidable predicate: version 0, byte-sized scalar fields, length-prefixed
byte fields at most 255 bytes, hosts of IP/onion kind with payloads of the
wire-mandated sizes, canonical/delegate of name kind, extra entries with a
type outside the 21 known tags (an extra entry carrying a known tag would be
re-dispatched to that tag's case on decode), and addr entries in the native
`hsk` form (the non-native `Addr.fromReader` path consumes a flag byte its
writer never emits, so no plain-currency entry can round-trip under the
spec's compressor contract). -/

def strOkb (s : Str) : Bool := s.length ≤ 255 && s.all (· < 256)

def bytesOkb (bs : List Nat) : Bool := bs.length ≤ 255 && bs.all (· < 256)

def targetWFb : Target → Bool
  | .inet4 a => a.length = 4 && a.all (· < 256)
  | .inet6 a => a.length = 16 && a.all (· < 256)
  | .onion k => k.length = 10 && k.all (· < 256)
  | .onionng k => k.length = 33 && k.all (· < 256)
  | .iname n => strOkb n
  | .hname n => strOkb n

def hostWFb (t : Target) : Bool := targetWFb t && t.isHostKind

def nameTargetWFb (t : Target) : Bool := targetWFb t && t.isName

def optionAllb {α : Type} (p : α → Bool) : Option α → Bool
  | none => true
  | some a => p a

def serviceWFb (s : Service) : Bool :=
  strOkb s.service && strOkb s.protocol && decide (s.priority < 256) &&
    decide (s.weight < 256) && targetWFb s.target && decide (s.port < 65536)

def locationWFb (l : Location) : Bool :=
  decide (l.version < 256) && decide (l.size < 256) &&
    decide (l.horizPre < 256) && decide (l.vertPre < 256) &&
    decide (l.latitude < 4294967296) && decide (l.longitude < 4294967296) &&
    decide (l.altitude < 4294967296)

def magnetWFb (m : Magnet) : Bool := strOkb m.nid && bytesOkb m.nin

def dsWFb (d : DS) : Bool :=
  decide (d.keyTag < 65536) && decide (d.algorithm < 256) &&
    decide (d.digestType < 256) && bytesOkb d.digest

def tlsWFb (t : TLS) : Bool :=
  strOkb t.protocol && decide (t.port < 65536) && decide (t.usage < 256) &&
    decide (t.selector < 256) && decide (t.matchingType < 256) &&
    bytesOkb t.certificate

def sshWFb (s : SSH) : Bool :=
  decide (s.algorithm < 256) && decide (s.type < 256) && bytesOkb s.fingerprint

def addrWFb (a : Addr) : Bool :=
  a.currency = hskStr &&
    (match parseHskAddr a.address with
     | some (_, v, h) => decide (v < 256) && decide (h.length ≤ 63) && h.all (· < 256)
     | none => false)

def extraWFb (e : Extra) : Bool :=
  decide (e.type < 256) && !(decide (e.type ∈ knownTags)) && bytesOkb e.data

def recordWFb (r : HSKRecord) : Bool :=
  decide (r.version = 0) && decide (r.ttl < 4294967296) &&
    r.hosts.all hostWFb &&
    optionAllb nameTargetWFb r.canonical &&
    optionAllb nameTargetWFb r.delegate &&
    r.ns.all targetWFb &&
    r.service.all serviceWFb &&
    r.url.all strOkb && r.email.all strOkb && r.text.all strOkb &&
    r.location.all locationWFb && r.magnet.all magnetWFb &&
    r.ds.all dsWFb && r.tls.all tlsWFb &&
    r.ssh.all sshWFb && r.pgp.all sshWFb &&
    r.addr.all addrWFb && r.extra.all extraWFb

def recordWF (r : HSKRecord) : Prop := recordWFb r = true

instance (r : HSKRecord) : Decidable (recordWF r) := by
  unfold recordWF; infer_instance

/-- The record produced by decoding an encoding of `r`: the TTL is quantized
to 64 seconds and every DS keyTag comes back byte-swapped. -/
def reDecoded (r : HSKRecord) : HSKRecord :=
  { r with version := 0, ttl := 64 * (r.ttl / 64), ds := r.ds.map dsSwap }

/-- The number of tag-dispatched items in a record body. -/
def optCount {α : Type} : Option α → Nat
  | none => 0
  | some _ => 1

def itemCount (r : HSKRecord) : Nat :=
  r.hosts.length +
    (optCount r.canonical +
      (optCount r.delegate +
        (r.ns.length +
          (r.service.length +
            (r.url.length +
              (r.email.length +
                (r.text.length +
                  (r.location.length +
                    (r.magnet.length +
                      (r.ds.length +
                        (r.tls.length +
                          (r.ssh.length +
                            (r.pgp.length +
                              (r.addr.length + r.extra.length))))))))))))))

/-! ### Concrete inputs used by the claim theorems -/

/-- A record with a single DS entry whose keyTag has distinct high and low
bytes. -/
def rLoneDS : HSKRecord := { emptyRecord with ds := [⟨1, 0, 0, []⟩] }

/-- A record with a single naked (inline IPv4) NS target. -/
def rNakedNS : HSKRecord := { emptyRecord with ns := [.inet4 [1, 2, 3, 4]] }

/-- A record with a canonical name and a single Tor host. -/
def rTorCanon : HSKRecord :=
  { emptyRecord with canonical := some (.iname (strBytes "x")),
                     hosts := [.onion [1, 2, 3, 4, 5, 6, 7, 8, 9, 10]] }

/-- A record with a canonical name and no hosts at all. -/
def rCanonOnly : HSKRecord :=
  { emptyRecord with canonical := some (.iname (strBytes "example.com")) }

/-- A record with a single TLS entry. -/
def rLoneTLS : HSKRecord :=
  { emptyRecord with tls := [⟨strBytes "tcp", 443, 3, 1, 1, [1, 2]⟩] }

/-- A blob whose top-level stream holds the single unknown tag 200 followed
by the bytes 171 and 0: version 0, ttl 0, empty symbol table, then
`[200, 171, 0]`. -/
def c5Blob : List Nat := [0, 0, 0, 0, 200, 171, 0]

/-- A record with a TTL that is not a multiple of 64. -/
def rTTL100 : HSKRecord := { emptyRecord with ttl := 100 }

/-- A record with ttl 3600 (`0x0E10`; `3600 >>> 6 = 56 = 0x38`). -/
def rTTL3600 : HSKRecord := { emptyRecord with ttl := 3600 }

/-- A record with both a first NS name and a first MX name for the SOA. -/
def rSOAFull : HSKRecord :=
  { emptyRecord with
      ns := [.iname (strBytes "ns1.example")],
      service := [⟨strBytes "smtp", strBytes "tcp", 10, 0,
        .iname (strBytes "mail.example"), 25⟩] }

/-- A partially decoded record whose canonical is already set. -/
def accCanon : HSKRecord :=
  { emptyRecord with canonical := some (.iname [97]) }

/-- A well-formed record exercising every field list. -/
def rAll : HSKRecord :=
  { version := 0, ttl := 3600,
    hosts := [.inet4 [1, 2, 3, 4],
              .inet6 [0, 0, 0, 0, 0, 0, 0, 0, 0, 0, 0, 0, 1, 2, 3, 4],
              .onion [1, 2, 3, 4, 5, 6, 7, 8, 9, 10]],
    canonical := some (.iname (strBytes "example.com")),
    delegate := some (.hname (strBytes "bob")),
    ns := [.iname (strBytes "ns1.example"), .inet4 [9, 9, 9, 9]],
    service := [⟨strBytes "smtp", strBytes "tcp", 10, 0,
      .iname (strBytes "mail.example"), 25⟩],
    url := [strBytes "https://example.com"],
    email := [strBytes "a@b.c"],
    text := [strBytes "hello"],
    location := [⟨0, 1, 2, 3, 4, 5, 6⟩],
    magnet := [⟨strBytes "btih", [171, 205]⟩],
    ds := [⟨258, 8, 2, [1, 2, 3]⟩],
    tls := [⟨strBytes "tcp", 443, 3, 1, 1, [9, 9]⟩],
    ssh := [⟨1, 1, [5, 5]⟩],
    pgp := [⟨2, 2, [6, 6]⟩],
    addr := [⟨hskStr, hskAddrStr false 0 [1, 2, 3, 4]⟩],
    extra := [⟨200, [7, 7, 7]⟩] }

/-! ## Theorems -/

/-! ### Reader/writer inverse lemmas -/

theorem readBytesN_append {xs rest : List Nat} {n : Nat} (h : xs.length = n) :
    readBytesN n (xs ++ rest) = some (xs, rest) := by
  subst h
  simp [readBytesN, List.take_left, List.drop_left]

theorem readU16LE_write {v : Nat} (h : v < 65536) (rest : List Nat) :
    readU16LE (writeU16LE v ++ rest) = some (v, rest) := by
  simp [writeU16LE, readU16LE]
  omega

theorem readU32LE_write {v : Nat} (h : v < 4294967296) (rest : List Nat) :
    readU32LE (writeU32LE v ++ rest) = some (v, rest) := by
  simp [writeU32LE, readU32LE]
  omega

theorem lookupIdx_get {t : List Str} {s : Str} {i : Nat}
    (h : lookupIdx t s = some i) : t[i]? = some s := by
  induction t generalizing i with
  | nil => simp [lookupIdx] at h
  | cons x xs ih =>
      by_cases hx : x = s
      · simp [lookupIdx, hx] at h
        simp [← h, hx]
      · simp [lookupIdx, hx] at h
        obtain ⟨j, hj, rfl⟩ := h
        simpa using ih hj

theorem dread_cwrite (t : List Str) (s : Str) (rest : List Nat) :
    dread t (cwrite t s ++ rest) = some (s, rest) := by
  unfold cwrite
  cases h : lookupIdx t s with
  | some i => simp [dread, lookupIdx_get h]
  | none => simp [dread, List.take_left, List.drop_left]

theorem readSymbols_write (t : List Str) (rest : List Nat) :
    readSymbols t.length (t.flatMap (fun s => s.length :: s) ++ rest) =
      some (t, rest) := by
  induction t with
  | nil => simp [readSymbols]
  | cons s ss ih =>
      have harr : (s :: ss).flatMap (fun x => x.length :: x) ++ rest =
          s.length :: (s ++ ((ss.flatMap fun x => x.length :: x) ++ rest)) := by
        simp
      rw [harr, List.length_cons, readSymbols]
      rw [if_pos (by simp)]
      rw [List.take_left, List.drop_left, ih]
      simp

theorem tableRead_write (t : List Str) (rest : List Nat) :
    tableRead (tableWrite t ++ rest) = some (t, rest) := by
  simp [tableWrite, tableRead, readSymbols_write]

theorem zeroRun_facts (bs : List Nat) :
    zeroRunStart bs + zeroRunLen bs ≤ bs.length ∧
      (bs.drop (zeroRunStart bs)).take (zeroRunLen bs) =
        List.replicate (zeroRunLen bs) 0 := by
  constructor
  · have h1 : zeroRunStart bs ≤ bs.length := by
      unfold zeroRunStart
      exact List.findIdx_le_length _
    have h2 : zeroRunLen bs ≤ (bs.drop (zeroRunStart bs)).length := by
      unfold zeroRunLen
      exact (List.takeWhile_prefix _).length_le
    simp only [List.length_drop] at h2
    omega
  · unfold zeroRunLen
    have hpre : (bs.drop (zeroRunStart bs)).takeWhile (fun b => b == 0) <+:
        bs.drop (zeroRunStart bs) := List.takeWhile_prefix _
    rw [List.prefix_iff_eq_take] at hpre
    rw [← hpre]
    apply List.eq_replicate_of_mem
    intro b hb
    have := List.mem_takeWhile_imp hb
    simpa using this

theorem ipRead_ipWrite {bs : List Nat} (h : bs.length = 16)
    (rest : List Nat) : ipRead (ipWrite bs ++ rest) = some (bs, rest) := by
  obtain ⟨hle, hrun⟩ := zeroRun_facts bs
  unfold ipWrite ipRead
  rw [h] at hle
  simp only [List.cons_append, List.append_assoc]
  rw [if_pos hle]
  have htake : (bs.take (zeroRunStart bs)).length = zeroRunStart bs := by
    rw [List.length_take]; omega
  rw [readBytesN_append htake]
  have hdrop : (bs.drop (zeroRunStart bs + zeroRunLen bs)).length =
      16 - zeroRunStart bs - zeroRunLen bs := by
    rw [List.length_drop, h]; omega
  simp only [Option.some_bind]
  rw [readBytesN_append hdrop]
  simp only [Option.map_some']
  suffices hX : bs.take (zeroRunStart bs) ++ (List.replicate (zeroRunLen bs) 0 ++
      bs.drop (zeroRunStart bs + zeroRunLen bs)) = bs by rw [hX]
  rw [← hrun]
  conv_rhs => rw [← List.take_append_drop (zeroRunStart bs) bs]
  congr 1
  conv_rhs => rw [← List.take_append_drop (zeroRunLen bs) (bs.drop (zeroRunStart bs))]
  congr 1
  rw [List.drop_drop]

theorem parseHskAddr_str {s : Str} {t : Bool} {v : Nat} {h : List Nat}
    (hp : parseHskAddr s = some (t, v, h)) : hskAddrStr t v h = s := by
  match s with
  | [] => simp [parseHskAddr] at hp
  | [c] => simp [parseHskAddr] at hp
  | c :: v0 :: h0 =>
      by_cases hc : c = 116
      · simp [parseHskAddr, hc] at hp
        obtain ⟨ht, hv, hh⟩ := hp
        simp [hskAddrStr, ← ht, ← hv, ← hh, hc]
      · by_cases hm : c = 109
        · simp [parseHskAddr, hc, hm] at hp
          obtain ⟨ht, hv, hh⟩ := hp
          simp [hskAddrStr, ← ht, ← hv, ← hh, hm]
        · simp [parseHskAddr, hc, hm] at hp

/-! ### Target and leaf round-trip lemmas -/

theorem readTargetBody_write {t : Target} (hwf : targetWFb t = true)
    (tab : List Str) (rest : List Nat) :
    readTargetBody tab t.typeByte (targetBody tab t ++ rest) =
      some (t, rest) := by
  cases t with
  | inet4 a =>
      simp only [targetWFb, Bool.and_eq_true, decide_eq_true_eq] at hwf
      simp [readTargetBody, targetBody, Target.typeByte, rtINET4, rtINET6,
        rtONION, rtONIONNG, rtINAME, rtHNAME, readBytesN_append hwf.1]
  | inet6 a =>
      simp only [targetWFb, Bool.and_eq_true, decide_eq_true_eq] at hwf
      simp [readTargetBody, targetBody, Target.typeByte, rtINET4, rtINET6,
        rtONION, rtONIONNG, rtINAME, rtHNAME, ipRead_ipWrite hwf.1]
  | onion k =>
      simp only [targetWFb, Bool.and_eq_true, decide_eq_true_eq] at hwf
      simp [readTargetBody, targetBody, Target.typeByte, rtINET4, rtINET6,
        rtONION, rtONIONNG, rtINAME, rtHNAME, readBytesN_append hwf.1]
  | onionng k =>
      simp only [targetWFb, Bool.and_eq_true, decide_eq_true_eq] at hwf
      simp [readTargetBody, targetBody, Target.typeByte, rtINET4, rtINET6,
        rtONION, rtONIONNG, rtINAME, rtHNAME, readBytesN_append hwf.1]
  | iname n =>
      simp [readTargetBody, targetBody, Target.typeByte, rtINET4, rtINET6,
        rtONION, rtONIONNG, rtINAME, rtHNAME, dread_cwrite]
  | hname n =>
      simp [readTargetBody, targetBody, Target.typeByte, rtINET4, rtINET6,
        rtONION, rtONIONNG, rtINAME, rtHNAME, dread_cwrite]

theorem readTargetFull_write {t : Target} (hwf : targetWFb t = true)
    (tab : List Str) (rest : List Nat) :
    readTargetFull tab (targetWrite tab t ++ rest) = some (t, rest) := by
  simp only [targetWrite, List.cons_append, readTargetFull]
  exact readTargetBody_write hwf tab rest

theorem extraRead_write (e : Extra) (rest : List Nat) :
    extraRead (extraWrite e ++ rest) = some (e, rest) := by
  simp [extraWrite, extraRead, readBytesN_append rfl]

theorem sshRead_write (s : SSH) (rest : List Nat) :
    sshRead (sshWrite s ++ rest) = some (s, rest) := by
  simp [sshWrite, sshRead, readBytesN_append rfl]

theorem tlsRead_write {t : TLS} (hp : t.port < 65536) (tab : List Str)
    (rest : List Nat) : tlsRead tab (tlsWrite tab t ++ rest) = some (t, rest) := by
  simp only [tlsWrite, tlsRead, List.append_assoc, List.cons_append,
    dread_cwrite, Option.some_bind, readU16LE_write hp,
    readBytesN_append rfl, Option.map_some']

theorem dsRead_write {d : DS} (hk : d.keyTag < 65536) (rest : List Nat) :
    dsRead (dsWrite d ++ rest) = some (dsSwap d, rest) := by
  simp only [dsWrite, writeU16LE, dsRead, List.append_assoc, List.cons_append,
    List.nil_append, readU16BE, Option.some_bind, readBytesN_append rfl,
    Option.map_some']
  have : 256 * (d.keyTag % 256) + d.keyTag / 256 % 256 =
      d.keyTag % 256 * 256 + d.keyTag / 256 := by omega
  simp [dsSwap, this]

theorem magnetRead_write (m : Magnet) (tab : List Str) (rest : List Nat) :
    magnetRead tab (magnetWrite tab m ++ rest) = some (m, rest) := by
  simp [magnetWrite, magnetRead, dread_cwrite, readBytesN_append rfl]

theorem locationRead_write {l : Location} (hla : l.latitude < 4294967296)
    (hlo : l.longitude < 4294967296) (hal : l.altitude < 4294967296)
    (rest : List Nat) : locationRead (locationWrite l ++ rest) = some (l, rest) := by
  simp only [locationWrite, locationRead, List.cons_append, List.append_assoc,
    readU32LE_write hla, readU32LE_write hlo, readU32LE_write hal,
    Option.some_bind, Option.map_some']

theorem addrRead_write {a : Addr} (hwf : addrWFb a = true) (tab : List Str)
    (rest : List Nat) : addrRead tab (addrWrite tab a ++ rest) = some (a, rest) := by
  simp only [addrWFb, Bool.and_eq_true, decide_eq_true_eq] at hwf
  obtain ⟨hcur, hrest⟩ := hwf
  cases hp : parseHskAddr a.address with
  | none => rw [hp] at hrest; simp at hrest
  | some tvh =>
      obtain ⟨test, v, hash⟩ := tvh
      rw [hp] at hrest
      simp only [Bool.and_eq_true, decide_eq_true_eq, List.all_eq_true] at hrest
      obtain ⟨⟨hv, hlen⟩, hbytes⟩ := hrest
      have hstr : hskAddrStr test v hash = a.address := parseHskAddr_str hp
      have hwrite : addrWrite tab a =
          (128 + (if test then 64 else 0) + hash.length) :: v :: hash := by
        unfold addrWrite
        rw [if_pos hcur, hp]
      rw [hwrite]
      simp only [List.cons_append, addrRead]
      have hflag : (128 + (if test then 64 else 0) + hash.length) % 256 =
          128 + (if test then 64 else 0) + hash.length := by
        cases test <;> simp <;> omega
      rw [hflag]
      rw [if_pos (by cases test <;> simp <;> omega)]
      have hmod64 : (128 + (if test then 64 else 0) + hash.length) % 64 =
          hash.length := by
        cases test <;> simp <;> omega
      rw [hmod64, readBytesN_append rfl]
      have htest : decide (64 ≤ (128 + (if test then 64 else 0) +
          hash.length) % 128) = test := by
        cases test <;> simp <;> omega
      simp only [Option.map_some', htest, hstr, ← hcur]

theorem serviceRead_write {s : Service} (hwf : serviceWFb s = true)
    (tab : List Str) (rest : List Nat) :
    serviceRead tab (serviceWrite tab s ++ rest) = some (s, rest) := by
  simp only [serviceWFb, Bool.and_eq_true, decide_eq_true_eq] at hwf
  obtain ⟨⟨⟨⟨⟨_, _⟩, _⟩, _⟩, htg⟩, hport⟩ := hwf
  simp only [serviceWrite, serviceRead, List.append_assoc, List.cons_append,
    dread_cwrite, Option.some_bind]
  rw [readTargetFull_write htg, Option.some_bind, readU16LE_write hport]
  simp

/-! ### Characterization of one loop step per item kind -/

theorem stepRead_host {t : Target} (hwf : hostWFb t = true) (tab : List Str)
    (acc : HSKRecord) (rest : List Nat) :
    stepRead tab acc t.typeByte (targetBody tab t ++ rest) =
      some ({ acc with hosts := acc.hosts ++ [t] }, rest) := by
  have hb : targetWFb t = true := by
    simp only [hostWFb, Bool.and_eq_true] at hwf
    exact hwf.1
  cases t with
  | inet4 a =>
      simp [stepRead, rtINET4, rtINET6, rtONION, rtONIONNG]
      simpa [Target.typeByte, targetBody, rtINET4] using
        readTargetBody_write (t := Target.inet4 a) hb tab rest
  | inet6 a =>
      simp [stepRead, rtINET4, rtINET6, rtONION, rtONIONNG]
      simpa [Target.typeByte, targetBody, rtINET6] using
        readTargetBody_write (t := Target.inet6 a) hb tab rest
  | onion k =>
      simp [stepRead, rtINET4, rtINET6, rtONION, rtONIONNG]
      simpa [Target.typeByte, targetBody, rtONION] using
        readTargetBody_write (t := Target.onion k) hb tab rest
  | onionng k =>
      simp [stepRead, rtINET4, rtINET6, rtONION, rtONIONNG]
      simpa [Target.typeByte, targetBody, rtONIONNG] using
        readTargetBody_write (t := Target.onionng k) hb tab rest
  | iname n => simp [hostWFb, Target.isHostKind] at hwf
  | hname n => simp [hostWFb, Target.isHostKind] at hwf

theorem stepRead_canonical {t : Target} {acc : HSKRecord}
    (hwf : targetWFb t = true) (hc : acc.canonical = none) (tab : List Str)
    (rest : List Nat) :
    stepRead tab acc rtCANONICAL (targetWrite tab t ++ rest) =
      some ({ acc with canonical := some t }, rest) := by
  simp [stepRead, rtINET4, rtINET6, rtONION, rtONIONNG, rtINAME, rtHNAME,
    rtCANONICAL, hc, readTargetFull_write hwf]

theorem stepRead_delegate {t : Target} {acc : HSKRecord}
    (hwf : targetWFb t = true) (hd : acc.delegate = none) (tab : List Str)
    (rest : List Nat) :
    stepRead tab acc rtDELEGATE (targetWrite tab t ++ rest) =
      some ({ acc with delegate := some t }, rest) := by
  simp [stepRead, rtINET4, rtINET6, rtONION, rtONIONNG, rtINAME, rtHNAME,
    rtCANONICAL, rtDELEGATE, hd, readTargetFull_write hwf]

theorem stepRead_ns {t : Target} (hwf : targetWFb t = true) (tab : List Str)
    (acc : HSKRecord) (rest : List Nat) :
    stepRead tab acc rtNS (targetWrite tab t ++ rest) =
      some ({ acc with ns := acc.ns ++ [t] }, rest) := by
  simp [stepRead, rtINET4, rtINET6, rtONION, rtONIONNG, rtINAME, rtHNAME,
    rtCANONICAL, rtDELEGATE, rtNS, readTargetFull_write hwf]

theorem stepRead_service {s : Service} (hwf : serviceWFb s = true)
    (tab : List Str) (acc : HSKRecord) (rest : List Nat) :
    stepRead tab acc rtSERVICE (serviceWrite tab s ++ rest) =
      some ({ acc with service := acc.service ++ [s] }, rest) := by
  simp [stepRead, rtINET4, rtINET6, rtONION, rtONIONNG, rtINAME, rtHNAME,
    rtCANONICAL, rtDELEGATE, rtNS, rtSERVICE, serviceRead_write hwf]

theorem stepRead_url (s : Str) (tab : List Str) (acc : HSKRecord)
    (rest : List Nat) :
    stepRead tab acc rtURL (cwrite tab s ++ rest) =
      some ({ acc with url := acc.url ++ [s] }, rest) := by
  simp [stepRead, rtINET4, rtINET6, rtONION, rtONIONNG, rtINAME, rtHNAME,
    rtCANONICAL, rtDELEGATE, rtNS, rtSERVICE, rtURL, dread_cwrite]

theorem stepRead_email (s : Str) (tab : List Str) (acc : HSKRecord)
    (rest : List Nat) :
    stepRead tab acc rtEMAIL (cwrite tab s ++ rest) =
      some ({ acc with email := acc.email ++ [s] }, rest) := by
  simp [stepRead, rtINET4, rtINET6, rtONION, rtONIONNG, rtINAME, rtHNAME,
    rtCANONICAL, rtDELEGATE, rtNS, rtSERVICE, rtURL, rtEMAIL, dread_cwrite]

theorem stepRead_text (s : Str) (tab : List Str) (acc : HSKRecord)
    (rest : List Nat) :
    stepRead tab acc rtTEXT (cwrite tab s ++ rest) =
      some ({ acc with text := acc.text ++ [s] }, rest) := by
  simp [stepRead, rtINET4, rtINET6, rtONION, rtONIONNG, rtINAME, rtHNAME,
    rtCANONICAL, rtDELEGATE, rtNS, rtSERVICE, rtURL, rtEMAIL, rtTEXT,
    dread_cwrite]

theorem stepRead_location {l : Location} (hwf : locationWFb l = true)
    (tab : List Str) (acc : HSKRecord) (rest : List Nat) :
    stepRead tab acc rtLOCATION (locationWrite l ++ rest) =
      some ({ acc with location := acc.location ++ [l] }, rest) := by
  simp only [locationWFb, Bool.and_eq_true, decide_eq_true_eq] at hwf
  obtain ⟨⟨⟨⟨⟨⟨_, _⟩, _⟩, _⟩, hla⟩, hlo⟩, hal⟩ := hwf
  simp [stepRead, rtINET4, rtINET6, rtONION, rtONIONNG, rtINAME, rtHNAME,
    rtCANONICAL, rtDELEGATE, rtNS, rtSERVICE, rtURL, rtEMAIL, rtTEXT,
    rtLOCATION, locationRead_write hla hlo hal]

theorem stepRead_magnet (m : Magnet) (tab : List Str) (acc : HSKRecord)
    (rest : List Nat) :
    stepRead tab acc rtMAGNET (magnetWrite tab m ++ rest) =
      some ({ acc with magnet := acc.magnet ++ [m] }, rest) := by
  simp [stepRead, rtINET4, rtINET6, rtONION, rtONIONNG, rtINAME, rtHNAME,
    rtCANONICAL, rtDELEGATE, rtNS, rtSERVICE, rtURL, rtEMAIL, rtTEXT,
    rtLOCATION, rtMAGNET, magnetRead_write]

theorem stepRead_ds {d : DS} (hk : d.keyTag < 65536) (tab : List Str)
    (acc : HSKRecord) (rest : List Nat) :
    stepRead tab acc rtDS (dsWrite d ++ rest) =
      some ({ acc with ds := acc.ds ++ [dsSwap d] }, rest) := by
  simp [stepRead, rtINET4, rtINET6, rtONION, rtONIONNG, rtINAME, rtHNAME,
    rtCANONICAL, rtDELEGATE, rtNS, rtSERVICE, rtURL, rtEMAIL, rtTEXT,
    rtLOCATION, rtMAGNET, rtDS, dsRead_write hk]

theorem stepRead_tls {t : TLS} (hp : t.port < 65536) (tab : List Str)
    (acc : HSKRecord) (rest : List Nat) :
    stepRead tab acc rtTLS (tlsWrite tab t ++ rest) =
      some ({ acc with tls := acc.tls ++ [t] }, rest) := by
  simp [stepRead, rtINET4, rtINET6, rtONION, rtONIONNG, rtINAME, rtHNAME,
    rtCANONICAL, rtDELEGATE, rtNS, rtSERVICE, rtURL, rtEMAIL, rtTEXT,
    rtLOCATION, rtMAGNET, rtDS, rtTLS, tlsRead_write hp]

theorem stepRead_ssh (s : SSH) (tab : List Str) (acc : HSKRecord)
    (rest : List Nat) :
    stepRead tab acc rtSSH (sshWrite s ++ rest) =
      some ({ acc with ssh := acc.ssh ++ [s] }, rest) := by
  simp [stepRead, rtINET4, rtINET6, rtONION, rtONIONNG, rtINAME, rtHNAME,
    rtCANONICAL, rtDELEGATE, rtNS, rtSERVICE, rtURL, rtEMAIL, rtTEXT,
    rtLOCATION, rtMAGNET, rtDS, rtTLS, rtSSH, sshRead_write]

theorem stepRead_pgp (s : SSH) (tab : List Str) (acc : HSKRecord)
    (rest : List Nat) :
    stepRead tab acc rtPGP (sshWrite s ++ rest) =
      some ({ acc with pgp := acc.pgp ++ [s] }, rest) := by
  simp [stepRead, rtINET4, rtINET6, rtONION, rtONIONNG, rtINAME, rtHNAME,
    rtCANONICAL, rtDELEGATE, rtNS, rtSERVICE, rtURL, rtEMAIL, rtTEXT,
    rtLOCATION, rtMAGNET, rtDS, rtTLS, rtSSH, rtPGP, sshRead_write]

theorem stepRead_addr {a : Addr} (hwf : addrWFb a = true) (tab : List Str)
    (acc : HSKRecord) (rest : List Nat) :
    stepRead tab acc rtADDR (addrWrite tab a ++ rest) =
      some ({ acc with addr := acc.addr ++ [a] }, rest) := by
  simp [stepRead, rtINET4, rtINET6, rtONION, rtONIONNG, rtINAME, rtHNAME,
    rtCANONICAL, rtDELEGATE, rtNS, rtSERVICE, rtURL, rtEMAIL, rtTEXT,
    rtLOCATION, rtMAGNET, rtDS, rtTLS, rtSSH, rtPGP, rtADDR,
    addrRead_write hwf]

theorem stepRead_unknown {ty : Nat} (hu : ty ∉ knownTags) (tab : List Str)
    (acc : HSKRecord) (bs : List Nat) :
    stepRead tab acc ty bs =
      (extraRead bs).map fun p =>
        ({ acc with extra := acc.extra ++ [p.1] }, p.2) := by
  simp only [knownTags, List.mem_cons, List.not_mem_nil, or_false,
    not_or] at hu
  obtain ⟨n1, n2, n3, n5, n6, n7, n8, n9, n10, n11, n12, n13, n14, n15, n16,
    n17, n18, n19, n20, n21⟩ := hu
  simp [stepRead, rtINET4, rtINET6, rtONION, rtONIONNG, rtINAME, rtHNAME,
    rtCANONICAL, rtDELEGATE, rtNS, rtSERVICE, rtURL, rtEMAIL, rtTEXT,
    rtLOCATION, rtMAGNET, rtDS, rtTLS, rtSSH, rtPGP, rtADDR,
    n1, n2, n3, n5, n6, n7, n8, n9, n10, n11, n12, n13, n14, n15, n16, n17,
    n18, n19, n20, n21]

theorem stepRead_extra {e : Extra} (hu : e.type ∉ knownTags) (tab : List Str)
    (acc : HSKRecord) (rest : List Nat) :
    stepRead tab acc e.type (extraWrite e ++ rest) =
      some ({ acc with extra := acc.extra ++ [e] }, rest) := by
  rw [stepRead_unknown hu, extraRead_write]
  simp

/-! ### The decode loop over a list of written items -/

theorem loopRead_items {α : Type} (tab : List Str) (w : α → Nat)
    (f : α → List Nat) (g : HSKRecord → α → HSKRecord) (P : α → Bool)
    (hstep : ∀ (acc : HSKRecord) (rest : List Nat) (a : α), P a = true →
      stepRead tab acc (w a) (f a ++ rest) = some (g acc a, rest)) :
    ∀ (l : List α), (∀ a ∈ l, P a = true) →
      ∀ (acc : HSKRecord) (fuel : Nat) (rest : List Nat),
      loopRead (l.length + fuel) tab acc
          ((l.flatMap fun a => w a :: f a) ++ rest) =
        loopRead fuel tab (l.foldl g acc) rest := by
  intro l
  induction l with
  | nil => intro hP acc fuel rest; simp
  | cons a l ih =>
      intro hP acc fuel rest
      have hchunk : ((a :: l).flatMap fun a => w a :: f a) ++ rest =
          w a :: (f a ++ ((l.flatMap fun a => w a :: f a) ++ rest)) := by
        simp
      have hlen : (a :: l).length + fuel = (l.length + fuel) + 1 := by
        simp [Nat.add_assoc, Nat.add_comm]
      rw [hchunk, hlen, loopRead, hstep acc _ a (hP a (by simp))]
      simp only [Option.some_bind, List.foldl_cons]
      exact ih (fun x hx => hP x (by simp [hx])) (g acc a) fuel rest

theorem loopRead_mono {tab : List Str} :
    ∀ (f g : Nat) (acc : HSKRecord) (bs : List Nat) (r : HSKRecord),
      loopRead f tab acc bs = some r → f ≤ g →
      loopRead g tab acc bs = some r := by
  intro f
  induction f with
  | zero =>
      intro g acc bs r h hle
      cases bs with
      | nil => cases g <;> simpa [loopRead] using h
      | cons b bs => simp [loopRead] at h
  | succ f ih =>
      intro g acc bs r h hle
      cases bs with
      | nil => cases g <;> simpa [loopRead] using h
      | cons b bs =>
          obtain ⟨g2, rfl⟩ : ∃ g2, g = g2 + 1 := ⟨g - 1, by omega⟩
          rw [loopRead] at h ⊢
          cases hs : stepRead tab acc b bs with
          | none => simp [hs] at h
          | some p =>
              rw [hs] at h
              simp only [Option.some_bind] at h ⊢
              exact ih g2 p.1 p.2 r h (by omega)

/-! ### Folded append actions -/

theorem foldl_push_hosts (l : List Target) (acc : HSKRecord) :
    l.foldl (fun acc t => { acc with hosts := acc.hosts ++ [t] }) acc =
      { acc with hosts := acc.hosts ++ l } := by
  induction l generalizing acc with
  | nil => simp
  | cons a l ih => simp [ih]

theorem foldl_push_ns (l : List Target) (acc : HSKRecord) :
    l.foldl (fun acc t => { acc with ns := acc.ns ++ [t] }) acc =
      { acc with ns := acc.ns ++ l } := by
  induction l generalizing acc with
  | nil => simp
  | cons a l ih => simp [ih]

theorem foldl_push_service (l : List Service) (acc : HSKRecord) :
    l.foldl (fun acc s => { acc with service := acc.service ++ [s] }) acc =
      { acc with service := acc.service ++ l } := by
  induction l generalizing acc with
  | nil => simp
  | cons a l ih => simp [ih]

theorem foldl_push_url (l : List Str) (acc : HSKRecord) :
    l.foldl (fun acc s => { acc with url := acc.url ++ [s] }) acc =
      { acc with url := acc.url ++ l } := by
  induction l generalizing acc with
  | nil => simp
  | cons a l ih => simp [ih]

theorem foldl_push_email (l : List Str) (acc : HSKRecord) :
    l.foldl (fun acc s => { acc with email := acc.email ++ [s] }) acc =
      { acc with email := acc.email ++ l } := by
  induction l generalizing acc with
  | nil => simp
  | cons a l ih => simp [ih]

theorem foldl_push_text (l : List Str) (acc : HSKRecord) :
    l.foldl (fun acc s => { acc with text := acc.text ++ [s] }) acc =
      { acc with text := acc.text ++ l } := by
  induction l generalizing acc with
  | nil => simp
  | cons a l ih => simp [ih]

theorem foldl_push_location (l : List Location) (acc : HSKRecord) :
    l.foldl (fun acc x => { acc with location := acc.location ++ [x] }) acc =
      { acc with location := acc.location ++ l } := by
  induction l generalizing acc with
  | nil => simp
  | cons a l ih => simp [ih]

theorem foldl_push_magnet (l : List Magnet) (acc : HSKRecord) :
    l.foldl (fun acc x => { acc with magnet := acc.magnet ++ [x] }) acc =
      { acc with magnet := acc.magnet ++ l } := by
  induction l generalizing acc with
  | nil => simp
  | cons a l ih => simp [ih]

theorem foldl_push_ds (l : List DS) (acc : HSKRecord) :
    l.foldl (fun acc d => { acc with ds := acc.ds ++ [dsSwap d] }) acc =
      { acc with ds := acc.ds ++ l.map dsSwap } := by
  induction l generalizing acc with
  | nil => simp
  | cons a l ih => simp [ih]

theorem foldl_push_tls (l : List TLS) (acc : HSKRecord) :
    l.foldl (fun acc x => { acc with tls := acc.tls ++ [x] }) acc =
      { acc with tls := acc.tls ++ l } := by
  induction l generalizing acc with
  | nil => simp
  | cons a l ih => simp [ih]

theorem foldl_push_ssh (l : List SSH) (acc : HSKRecord) :
    l.foldl (fun acc x => { acc with ssh := acc.ssh ++ [x] }) acc =
      { acc with ssh := acc.ssh ++ l } := by
  induction l generalizing acc with
  | nil => simp
  | cons a l ih => simp [ih]

theorem foldl_push_pgp (l : List SSH) (acc : HSKRecord) :
    l.foldl (fun acc x => { acc with pgp := acc.pgp ++ [x] }) acc =
      { acc with pgp := acc.pgp ++ l } := by
  induction l generalizing acc with
  | nil => simp
  | cons a l ih => simp [ih]

theorem foldl_push_addr (l : List Addr) (acc : HSKRecord) :
    l.foldl (fun acc x => { acc with addr := acc.addr ++ [x] }) acc =
      { acc with addr := acc.addr ++ l } := by
  induction l generalizing acc with
  | nil => simp
  | cons a l ih => simp [ih]

theorem foldl_push_extra (l : List Extra) (acc : HSKRecord) :
    l.foldl (fun acc x => { acc with extra := acc.extra ++ [x] }) acc =
      { acc with extra := acc.extra ++ l } := by
  induction l generalizing acc with
  | nil => simp
  | cons a l ih => simp [ih]

/-! ### The optional canonical/delegate segments -/

theorem loopRead_canonical_seg (tab : List Str) {o : Option Target}
    (hwf : optionAllb nameTargetWFb o = true)
    (v0 t0 : Nat) (hs0 : List Target) (d0 : Option Target) (ns0 : List Target)
    (sv0 : List Service) (u0 e0 x0 : List Str) (lo0 : List Location)
    (mg0 : List Magnet) (ds0 : List DS) (tl0 : List TLS) (sh0 pg0 : List SSH)
    (ad0 : List Addr) (ex0 : List Extra) (fuel : Nat) (rest : List Nat) :
    loopRead (optCount o + fuel) tab
        ⟨v0, t0, hs0, none, d0, ns0, sv0, u0, e0, x0, lo0, mg0, ds0, tl0,
          sh0, pg0, ad0, ex0⟩
        (optSeg tab rtCANONICAL o ++ rest) =
      loopRead fuel tab
        ⟨v0, t0, hs0, o, d0, ns0, sv0, u0, e0, x0, lo0, mg0, ds0, tl0,
          sh0, pg0, ad0, ex0⟩ rest := by
  cases o with
  | none => simp [optCount, optSeg]
  | some t =>
      have hwf2 : targetWFb t = true := by
        simp only [optionAllb, nameTargetWFb, Bool.and_eq_true] at hwf
        exact hwf.1
      have hlen : optCount (some t) + fuel = fuel + 1 := by
        simp [optCount]; omega
      rw [hlen]
      simp only [optSeg, List.cons_append]
      rw [loopRead, stepRead_canonical hwf2 rfl]
      simp

theorem loopRead_delegate_seg (tab : List Str) {o : Option Target}
    (hwf : optionAllb nameTargetWFb o = true)
    (v0 t0 : Nat) (hs0 : List Target) (c0 : Option Target) (ns0 : List Target)
    (sv0 : List Service) (u0 e0 x0 : List Str) (lo0 : List Location)
    (mg0 : List Magnet) (ds0 : List DS) (tl0 : List TLS) (sh0 pg0 : List SSH)
    (ad0 : List Addr) (ex0 : List Extra) (fuel : Nat) (rest : List Nat) :
    loopRead (optCount o + fuel) tab
        ⟨v0, t0, hs0, c0, none, ns0, sv0, u0, e0, x0, lo0, mg0, ds0, tl0,
          sh0, pg0, ad0, ex0⟩
        (optSeg tab rtDELEGATE o ++ rest) =
      loopRead fuel tab
        ⟨v0, t0, hs0, c0, o, ns0, sv0, u0, e0, x0, lo0, mg0, ds0, tl0,
          sh0, pg0, ad0, ex0⟩ rest := by
  cases o with
  | none => simp [optCount, optSeg]
  | some t =>
      have hwf2 : targetWFb t = true := by
        simp only [optionAllb, nameTargetWFb, Bool.and_eq_true] at hwf
        exact hwf.1
      have hlen : optCount (some t) + fuel = fuel + 1 := by
        simp [optCount]; omega
      rw [hlen]
      simp only [optSeg, List.cons_append]
      rw [loopRead, stepRead_delegate hwf2 rfl]
      simp

/-! ### The body is at least as long as its item count -/

theorem length_le_flatMap {α : Type} (w : α → Nat) (f : α → List Nat)
    (l : List α) : l.length ≤ (l.flatMap fun a => w a :: f a).length := by
  induction l with
  | nil => simp
  | cons a l ih =>
      simp only [List.flatMap_cons, List.length_append, List.length_cons]
      omega

theorem loopRead_items_tag {α : Type} (tab : List Str) (tag : Nat)
    (f : α → List Nat) (g : HSKRecord → α → HSKRecord) (P : α → Bool)
    (hstep : ∀ (acc : HSKRecord) (rest : List Nat) (a : α), P a = true →
      stepRead tab acc tag (f a ++ rest) = some (g acc a, rest)) :
    ∀ (l : List α), (∀ a ∈ l, P a = true) →
      ∀ (acc : HSKRecord) (fuel : Nat) (rest : List Nat),
      loopRead (l.length + fuel) tab acc
          ((l.flatMap fun a => tag :: f a) ++ rest) =
        loopRead fuel tab (l.foldl g acc) rest :=
  loopRead_items tab (fun _ => tag) f g P hstep

theorem length_le_flatMap_tag {α : Type} (tag : Nat) (f : α → List Nat)
    (l : List α) : l.length ≤ (l.flatMap fun a => tag :: f a).length :=
  length_le_flatMap (fun _ => tag) f l

theorem itemCount_le_body (tab : List Str) (r : HSKRecord) :
    itemCount r ≤ (recordBody tab r).length := by
  have h1 := length_le_flatMap Target.typeByte (targetBody tab) r.hosts
  have h2 : optCount r.canonical ≤
      (optSeg tab rtCANONICAL r.canonical).length := by
    cases r.canonical <;> simp [optCount, optSeg]
  have h3 : optCount r.delegate ≤
      (optSeg tab rtDELEGATE r.delegate).length := by
    cases r.delegate <;> simp [optCount, optSeg]
  have h4 := length_le_flatMap_tag rtNS (targetWrite tab) r.ns
  have h5 := length_le_flatMap_tag rtSERVICE (serviceWrite tab) r.service
  have h6 := length_le_flatMap_tag rtURL (cwrite tab) r.url
  have h7 := length_le_flatMap_tag rtEMAIL (cwrite tab) r.email
  have h8 := length_le_flatMap_tag rtTEXT (cwrite tab) r.text
  have h9 := length_le_flatMap_tag rtLOCATION locationWrite r.location
  have h10 := length_le_flatMap_tag rtMAGNET (magnetWrite tab) r.magnet
  have h11 := length_le_flatMap_tag rtDS dsWrite r.ds
  have h12 := length_le_flatMap_tag rtTLS (tlsWrite tab) r.tls
  have h13 := length_le_flatMap_tag rtSSH sshWrite r.ssh
  have h14 := length_le_flatMap_tag rtPGP sshWrite r.pgp
  have h15 := length_le_flatMap_tag rtADDR (addrWrite tab) r.addr
  have h16 := length_le_flatMap Extra.type extraWrite r.extra
  simp only [itemCount, recordBody, List.length_append]
  omega

/-! ### decode after encode, characterized -/

theorem decode_encode {r : HSKRecord} (hwf : recordWF r)
    (ht : r.ttl < 4194304) :
    decodeRecord (encodeRecord r) = some (reDecoded r) := by
  have hwfb := hwf
  unfold recordWF recordWFb at hwfb
  simp only [Bool.and_eq_true, decide_eq_true_eq, List.all_eq_true] at hwfb
  obtain ⟨⟨⟨⟨⟨⟨⟨⟨⟨⟨⟨⟨⟨⟨⟨⟨⟨hver, httl⟩, hhosts⟩, hcan⟩, hdel⟩, hns⟩, hsrv⟩,
    hurl⟩, hemail⟩, htext⟩, hloc⟩, hmag⟩, hds⟩, htls⟩, hssh⟩, hpgp⟩, haddr⟩,
    hextra⟩ := hwfb
  have hbnd : r.ttl / 64 < 65536 := by omega
  have henc : encodeRecord r =
      0 :: (writeU16LE (r.ttl / 64) ++
        (tableWrite (compressRecord r) ++ recordBody (compressRecord r) r)) := by
    unfold encodeRecord
    rw [hver]
    simp [List.append_assoc]
  rw [henc, decodeRecord]
  simp only [if_pos rfl, readU16LE_write hbnd, Option.some_bind,
    tableRead_write]
  refine loopRead_mono (itemCount r) _ _ _ _ ?_
    (itemCount_le_body (compressRecord r) r)
  have hfuel : itemCount r =
      r.hosts.length + (optCount r.canonical + (optCount r.delegate +
        (r.ns.length + (r.service.length + (r.url.length + (r.email.length +
          (r.text.length + (r.location.length + (r.magnet.length +
            (r.ds.length + (r.tls.length + (r.ssh.length + (r.pgp.length +
              (r.addr.length + (r.extra.length + 0))))))))))))))) := by
    unfold itemCount
    omega
  have hbody : ∀ tab, recordBody tab r =
      (r.hosts.flatMap fun t => t.typeByte :: targetBody tab t) ++
      (optSeg tab rtCANONICAL r.canonical ++
      (optSeg tab rtDELEGATE r.delegate ++
      ((r.ns.flatMap fun t => rtNS :: targetWrite tab t) ++
      ((r.service.flatMap fun s => rtSERVICE :: serviceWrite tab s) ++
      ((r.url.flatMap fun s => rtURL :: cwrite tab s) ++
      ((r.email.flatMap fun s => rtEMAIL :: cwrite tab s) ++
      ((r.text.flatMap fun s => rtTEXT :: cwrite tab s) ++
      ((r.location.flatMap fun l => rtLOCATION :: locationWrite l) ++
      ((r.magnet.flatMap fun m => rtMAGNET :: magnetWrite tab m) ++
      ((r.ds.flatMap fun d => rtDS :: dsWrite d) ++
      ((r.tls.flatMap fun x => rtTLS :: tlsWrite tab x) ++
      ((r.ssh.flatMap fun x => rtSSH :: sshWrite x) ++
      ((r.pgp.flatMap fun x => rtPGP :: sshWrite x) ++
      ((r.addr.flatMap fun x => rtADDR :: addrWrite tab x) ++
      ((r.extra.flatMap fun e => e.type :: extraWrite e) ++
        []))))))))))))))) := by
    intro tab
    simp [recordBody, List.append_assoc]
  rw [hfuel, hbody]
  show loopRead _ _
      (⟨0, r.ttl / 64 * 64, [], none, none, [], [], [], [], [], [], [], [],
        [], [], [], [], []⟩ : HSKRecord) _ = _
  rw [loopRead_items (compressRecord r) Target.typeByte
      (targetBody (compressRecord r))
      (fun acc t => { acc with hosts := acc.hosts ++ [t] }) hostWFb
      (fun acc rest a ha => stepRead_host ha (compressRecord r) acc rest)
      r.hosts hhosts, foldl_push_hosts]
  simp only [List.nil_append]
  rw [loopRead_canonical_seg (compressRecord r) hcan]
  rw [loopRead_delegate_seg (compressRecord r) hdel]
  rw [loopRead_items_tag (compressRecord r) rtNS
      (targetWrite (compressRecord r))
      (fun acc t => { acc with ns := acc.ns ++ [t] }) targetWFb
      (fun acc rest a ha => stepRead_ns ha (compressRecord r) acc rest)
      r.ns hns, foldl_push_ns]
  simp only [List.nil_append]
  rw [loopRead_items_tag (compressRecord r) rtSERVICE
      (serviceWrite (compressRecord r))
      (fun acc s => { acc with service := acc.service ++ [s] }) serviceWFb
      (fun acc rest a ha => stepRead_service ha (compressRecord r) acc rest)
      r.service hsrv, foldl_push_service]
  simp only [List.nil_append]
  rw [loopRead_items_tag (compressRecord r) rtURL (cwrite (compressRecord r))
      (fun acc s => { acc with url := acc.url ++ [s] }) strOkb
      (fun acc rest a ha => stepRead_url a (compressRecord r) acc rest)
      r.url hurl, foldl_push_url]
  simp only [List.nil_append]
  rw [loopRead_items_tag (compressRecord r) rtEMAIL (cwrite (compressRecord r))
      (fun acc s => { acc with email := acc.email ++ [s] }) strOkb
      (fun acc rest a ha => stepRead_email a (compressRecord r) acc rest)
      r.email hemail, foldl_push_email]
  simp only [List.nil_append]
  rw [loopRead_items_tag (compressRecord r) rtTEXT (cwrite (compressRecord r))
      (fun acc s => { acc with text := acc.text ++ [s] }) strOkb
      (fun acc rest a ha => stepRead_text a (compressRecord r) acc rest)
      r.text htext, foldl_push_text]
  simp only [List.nil_append]
  rw [loopRead_items_tag (compressRecord r) rtLOCATION locationWrite
      (fun acc l => { acc with location := acc.location ++ [l] }) locationWFb
      (fun acc rest a ha => stepRead_location ha (compressRecord r) acc rest)
      r.location hloc, foldl_push_location]
  simp only [List.nil_append]
  rw [loopRead_items_tag (compressRecord r) rtMAGNET
      (magnetWrite (compressRecord r))
      (fun acc m => { acc with magnet := acc.magnet ++ [m] }) magnetWFb
      (fun acc rest a ha => stepRead_magnet a (compressRecord r) acc rest)
      r.magnet hmag, foldl_push_magnet]
  simp only [List.nil_append]
  rw [loopRead_items_tag (compressRecord r) rtDS dsWrite
      (fun acc d => { acc with ds := acc.ds ++ [dsSwap d] }) dsWFb
      (fun acc rest a ha => stepRead_ds
        (by
          simp only [dsWFb, Bool.and_eq_true, decide_eq_true_eq] at ha
          exact ha.1.1.1) (compressRecord r) acc rest)
      r.ds hds, foldl_push_ds]
  simp only [List.nil_append]
  rw [loopRead_items_tag (compressRecord r) rtTLS
      (tlsWrite (compressRecord r))
      (fun acc x => { acc with tls := acc.tls ++ [x] }) tlsWFb
      (fun acc rest a ha => stepRead_tls
        (by
          simp only [tlsWFb, Bool.and_eq_true, decide_eq_true_eq] at ha
          exact ha.1.1.1.1.2) (compressRecord r) acc rest)
      r.tls htls, foldl_push_tls]
  simp only [List.nil_append]
  rw [loopRead_items_tag (compressRecord r) rtSSH sshWrite
      (fun acc x => { acc with ssh := acc.ssh ++ [x] }) sshWFb
      (fun acc rest a ha => stepRead_ssh a (compressRecord r) acc rest)
      r.ssh hssh, foldl_push_ssh]
  simp only [List.nil_append]
  rw [loopRead_items_tag (compressRecord r) rtPGP sshWrite
      (fun acc x => { acc with pgp := acc.pgp ++ [x] }) sshWFb
      (fun acc rest a ha => stepRead_pgp a (compressRecord r) acc rest)
      r.pgp hpgp, foldl_push_pgp]
  simp only [List.nil_append]
  rw [loopRead_items_tag (compressRecord r) rtADDR
      (addrWrite (compressRecord r))
      (fun acc x => { acc with addr := acc.addr ++ [x] }) addrWFb
      (fun acc rest a ha => stepRead_addr ha (compressRecord r) acc rest)
      r.addr haddr, foldl_push_addr]
  simp only [List.nil_append]
  rw [loopRead_items (compressRecord r) Extra.type extraWrite
      (fun acc x => { acc with extra := acc.extra ++ [x] }) extraWFb
      (fun acc rest a ha => stepRead_extra
        (by
          simp only [extraWFb, Bool.and_eq_true, Bool.not_eq_true',
            decide_eq_false_iff_not] at ha
          exact ha.1.2) (compressRecord r) acc rest)
      r.extra hextra, foldl_push_extra]
  simp only [List.nil_append]
  simp only [loopRead, reDecoded, Option.some.injEq]
  exact HSKRecord.mk.injEq .. ▸ by
    refine ⟨rfl, by omega, rfl, rfl, rfl, rfl, rfl, rfl, rfl, rfl, rfl, rfl,
      rfl, rfl, rfl, rfl, rfl, rfl⟩

/-! ## Claim theorems -/

/-- Claim C1: the claim asserts `decode(encode(r)) == r` field-for-field for
every valid record, including the `ds` list.  The code writes `DS.keyTag`
little-endian (`bw.writeU16`) but reads it big-endian (`br.readU16BE`), so a
record holding the single DS entry `{keyTag: 1, algorithm: 0, digestType: 0,
digest: []}` decodes with keyTag 256 instead of 1: the round-trip fails on
the code.  This theorem evaluates the codec at that failing input. -/
theorem c1_ds_keytag_byteswap :
    rLoneDS.ds.map DS.keyTag = [1] ∧
      (decodeRecord (encodeRecord rLoneDS)).map (fun x => x.ds.map DS.keyTag) =
        some [256] := by decide

/-- Claim C7: for every valid record whose ttl fits the wire's u16 (after the
shift by 6, i.e. ttl < 2^22), encoding and then decoding yields a record
whose ttl is `t - t % 64`, which for a u32 ttl equals `t & ~63`. -/
theorem c7_ttl_quantization (r : HSKRecord) (hwf : recordWF r)
    (ht : r.ttl < 4194304) :
    (decodeRecord (encodeRecord r)).map HSKRecord.ttl =
      some (r.ttl - r.ttl % 64) := by
  rw [decode_encode hwf ht]
  simp only [Option.map_some', reDecoded]
  congr 1
  omega

/-- Witness for C7 at a record with ttl 100: the decoded ttl is 64. -/
theorem c7_ttl_quantization_witness :
    recordWF rTTL100 ∧ rTTL100.ttl < 4194304 ∧
      (decodeRecord (encodeRecord rTTL100)).map HSKRecord.ttl =
        some (rTTL100.ttl - rTTL100.ttl % 64) :=
  ⟨by decide, by decide, c7_ttl_quantization rTTL100 (by decide) (by decide)⟩

/-- Claim C5 counterexample: decoding the blob `[0, 0,0, 0, 200, 171, 0]`
(version 0, ttl 0, empty table, then the unknown tag 200 followed by the
bytes 171 and 0) produces an Extra whose type is 171 — the byte after the
tag — not 200 as the claim states, because the switch already consumed the
tag byte and `Extra.fromReader` reads its own type byte. -/
theorem c5_extra_tag_counterexample :
    (decodeRecord c5Blob).map (fun r => r.extra.map Extra.type) = some [171] ∧
      (171 : Nat) ≠ 200 := by decide

/-- Claim C5 as amended: on decode, a top-level tag byte outside the 21 known
tag values produces an Extra entry whose type field equals the byte
immediately following the tag byte; after the tag byte the decoder consumes
that stored type byte and then one length-prefixed blob, the blob becoming
the Extra's data. -/
theorem c5_unknown_tag_extra (tab : List Str) (acc : HSKRecord)
    (ty b len : Nat) (data rest : List Nat) (hu : ty ∉ knownTags)
    (hlen : data.length = len) :
    stepRead tab acc ty (b :: len :: (data ++ rest)) =
      some ({ acc with extra := acc.extra ++ [⟨b, data⟩] }, rest) := by
  rw [stepRead_unknown hu]
  simp [extraRead, readBytesN_append hlen]

/-- Witness for C5 at tag 200 with stored type byte 171 and an empty blob. -/
theorem c5_unknown_tag_extra_witness :
    (200 : Nat) ∉ knownTags ∧
      stepRead [] emptyRecord 200 (171 :: 0 :: (([] : List Nat) ++ [])) =
        some ({ emptyRecord with
                  extra := emptyRecord.extra ++ [⟨171, []⟩] }, []) :=
  ⟨by decide,
    c5_unknown_tag_extra [] emptyRecord 200 171 0 [] [] (by decide) rfl⟩

/-- Claim C6: during decode, a CANONICAL, INAME or HNAME tag while canonical
is already set, or a DELEGATE tag while delegate is already set, makes the
read loop fail (the source's `assert(!this.canonical)` /
`assert(!this.delegate)`). -/
theorem c6_duplicate_canonical_delegate_error (fuel : Nat) (tab : List Str)
    (acc : HSKRecord) (tag : Nat) (rest : List Nat)
    (h : ((tag = rtINAME ∨ tag = rtHNAME ∨ tag = rtCANONICAL) ∧
            acc.canonical.isSome = true) ∨
         (tag = rtDELEGATE ∧ acc.delegate.isSome = true)) :
    loopRead (fuel + 1) tab acc (tag :: rest) = none := by
  rw [loopRead]
  have hstep : stepRead tab acc tag rest = none := by
    rcases h with ⟨htag, hc⟩ | ⟨htag, hd⟩
    · rcases htag with rfl | rfl | rfl <;>
        simp [stepRead, rtINET4, rtINET6, rtONION, rtONIONNG, rtINAME,
          rtHNAME, rtCANONICAL, hc]
    · subst htag
      simp [stepRead, rtINET4, rtINET6, rtONION, rtONIONNG, rtINAME,
        rtHNAME, rtCANONICAL, rtDELEGATE, hd]
  rw [hstep]
  rfl

/-- Witness for C6: a second CANONICAL tag on a state whose canonical is set
fails, and end-to-end, the blob `[0, 0,0, 1,1,97, 8,6,0,0, 8,6,0,0]` carrying
two CANONICAL items fails to decode. -/
theorem c6_duplicate_canonical_delegate_error_witness :
    (((rtCANONICAL = rtINAME ∨ rtCANONICAL = rtHNAME ∨
         rtCANONICAL = rtCANONICAL) ∧ accCanon.canonical.isSome = true) ∨
       (rtCANONICAL = rtDELEGATE ∧ accCanon.delegate.isSome = true)) ∧
      loopRead (0 + 1) [] accCanon (rtCANONICAL :: [6, 0, 0]) = none ∧
      decodeRecord [0, 0, 0, 1, 1, 97, 8, 6, 0, 0, 8, 6, 0, 0] = none :=
  ⟨Or.inl ⟨by decide, by decide⟩,
    c6_duplicate_canonical_delegate_error 0 [] accCanon rtCANONICAL [6, 0, 0]
      (Or.inl ⟨by decide, by decide⟩),
    by decide⟩

/-- Claim C8 counterexample: for ttl 3600 the two bytes after the version
byte are `0x38 0x00`, not the big-endian pair `0x00 0x38` the claim states:
the external bufio `writeU16` is little-endian. -/
theorem c8_ttl_be_counterexample :
    ((encodeRecord rTTL3600).drop 1).take 2 = [56, 0] ∧
      [56, 0] ≠ [0, 56] := by decide

/-- Claim C8 as amended: in every encoded blob the two bytes immediately
after the version byte are `ttl >> 6` as a little-endian u16; in particular
for ttl 3600 the pair is `0x38 0x00`. -/
theorem c8_ttl_wire_le (r : HSKRecord) :
    ((encodeRecord r).drop 1).take 2 =
      [r.ttl / 64 % 256, r.ttl / 64 / 256 % 256] := by
  unfold encodeRecord writeU16LE
  simp

/-- Claim C2 counterexample: the claim says the referral authority is
`toNS(tld, naked)` with the caller's naked flag; on the record whose only NS
target is the inline IPv4 `1.2.3.4`, `toDNS("a.b.", A, false)` returns one
authority record although `toNS(tld, false) ++ toDS(tld)` is empty — the
implementation forces `naked = true`. -/
theorem c2_naked_flag_counterexample :
    (toDNS rNakedNS (strBytes "a.b.") tyA false).map
        (fun m => m.authority.length) = some 1 ∧
      (toNS rNakedNS (tldOf (strBytes "a.b.")) false ++
        toDS rNakedNS (tldOf (strBytes "a.b."))).length = 0 := by decide

/-- Claim C2 as amended: for every record whose delegate, if set, is of name
kind (the spec's data model; a non-name delegate makes `toDNAME`'s `isName`
assert throw) and every fully-qualified name with more than one label,
`toDNS` returns a non-authoritative message whose sections are, with `naked`
taken as `true` regardless of the passed flag: if `ns` is non-empty,
authority `toNS(tld, true)` and additional `toNSIP(tld, true)`; else if
delegate is set, answer `toDNAME(tld)`; else authority `toSOA(tld)`; and in
all three cases `toDS(tld)` is appended to the authority. -/
theorem c2_referral_sections (r : HSKRecord) (name : Str) (qtype : Nat)
    (naked : Bool) (hf : isFQDN name = true) (hl : 1 < labelCount name)
    (hdel : optionAllb nameTargetWFb r.delegate = true) :
    ∃ msg, toDNS r name qtype naked = some msg ∧
      msg.aa = false ∧ msg.qr = true ∧ msg.ad = true ∧
      msg.edns = some (4096, true) ∧
      (r.ns ≠ [] →
        msg.answer = [] ∧
        msg.authority = toNS r (tldOf name) true ++ toDS r (tldOf name) ∧
        msg.additional = toNSIP r (tldOf name) true) ∧
      (r.ns = [] → r.delegate.isSome = true →
        toDNAME r (tldOf name) = some msg.answer ∧
        msg.authority = toDS r (tldOf name) ∧
        msg.additional = []) ∧
      (r.ns = [] → r.delegate = none →
        msg.answer = [] ∧
        msg.authority = toSOA r (tldOf name) ++ toDS r (tldOf name) ∧
        msg.additional = []) := by
  by_cases hns : r.ns = []
  · cases hdc : r.delegate with
    | none =>
        refine ⟨{ qr := true, ad := true, aa := false,
                  answer := [],
                  authority := toSOA r (tldOf name) ++ toDS r (tldOf name),
                  additional := [],
                  edns := some (4096, true) },
          ?_, rfl, rfl, rfl, rfl, ?_, ?_, ?_⟩
        · unfold toDNS
          simp [hf, hl, hns, hdc]
        · intro h; exact absurd hns h
        · intro _ hd; simp at hd
        · intro _ _; exact ⟨rfl, rfl, rfl⟩
    | some t =>
        have hname : t.isName = true := by
          rw [hdc] at hdel
          simp only [optionAllb, nameTargetWFb, Bool.and_eq_true] at hdel
          exact hdel.2
        have hdn : toDNAME r (tldOf name) =
            some [⟨tldOf name, tyDNAME, r.ttl, .dname (targetToDNS t)⟩] := by
          unfold toDNAME
          rw [hdc]
          simp [hname]
        refine ⟨{ qr := true, ad := true, aa := false,
                  answer :=
                    [⟨tldOf name, tyDNAME, r.ttl, .dname (targetToDNS t)⟩],
                  authority := toDS r (tldOf name),
                  additional := [],
                  edns := some (4096, true) },
          ?_, rfl, rfl, rfl, rfl, ?_, ?_, ?_⟩
        · unfold toDNS
          simp [hf, hl, hns, hdc, hdn]
        · intro h; exact absurd hns h
        · intro _ _; exact ⟨hdn, rfl, rfl⟩
        · intro _ hd; simp at hd
  · have hlen : r.ns.length > 0 := List.length_pos.mpr hns
    refine ⟨{ qr := true, ad := true, aa := false,
              answer := [],
              authority := toNS r (tldOf name) true ++ toDS r (tldOf name),
              additional := toNSIP r (tldOf name) true,
              edns := some (4096, true) },
      ?_, rfl, rfl, rfl, rfl, ?_, ?_, ?_⟩
    · unfold toDNS
      simp [hf, hl, hlen]
    · intro _; exact ⟨rfl, rfl, rfl⟩
    · intro h _; exact absurd h hns
    · intro h _; exact absurd h hns

/-- Witness for C2 on the naked-NS record at name `a.b.`. -/
theorem c2_referral_sections_witness :
    isFQDN (strBytes "a.b.") = true ∧ 1 < labelCount (strBytes "a.b.") ∧
      optionAllb nameTargetWFb rNakedNS.delegate = true ∧
      ∃ msg, toDNS rNakedNS (strBytes "a.b.") tyA true = some msg ∧
        msg.aa = false ∧ msg.qr = true ∧ msg.ad = true ∧
        msg.edns = some (4096, true) ∧
        (rNakedNS.ns ≠ [] →
          msg.answer = [] ∧
          msg.authority = toNS rNakedNS (tldOf (strBytes "a.b.")) true ++
            toDS rNakedNS (tldOf (strBytes "a.b.")) ∧
          msg.additional = toNSIP rNakedNS (tldOf (strBytes "a.b.")) true) ∧
        (rNakedNS.ns = [] → rNakedNS.delegate.isSome = true →
          toDNAME rNakedNS (tldOf (strBytes "a.b.")) = some msg.answer ∧
          msg.authority = toDS rNakedNS (tldOf (strBytes "a.b.")) ∧
          msg.additional = []) ∧
        (rNakedNS.ns = [] → rNakedNS.delegate = none →
          msg.answer = [] ∧
          msg.authority = toSOA rNakedNS (tldOf (strBytes "a.b.")) ++
            toDS rNakedNS (tldOf (strBytes "a.b.")) ∧
          msg.additional = []) :=
  ⟨by decide, by decide, by decide,
    c2_referral_sections rNakedNS (strBytes "a.b.") tyA true (by decide)
      (by decide) (by decide)⟩

/-- Claim C3 counterexample: on a record with canonical set, no INET4 hosts
but one Tor host, a qtype=A query returns a TXT answer (the Tor TXT), not
the CNAME the claim's particular case states. -/
theorem c3_tor_fallback_counterexample :
    (toDNS rTorCanon (strBytes "a.") tyA true).map
        (fun m => m.answer.map DNSRecord.type) = some [tyTXT] ∧
      (rTorCanon.hosts.all fun h => !h.isINET4) = true ∧
      rTorCanon.canonical.isSome = true ∧ tyTXT ≠ tyCNAME := by decide

/-- Claim C3 as amended: on a one-label fully-qualified name, for a record
whose canonical target, if set, is of name kind (the spec's data model; a
non-name canonical makes `toCNAME`'s `isName` assert throw), if the qtype
dispatch leaves both answer and authority empty then the answer is the CNAME
synthesized from canonical when canonical is set and the SOA from
`toSOA(name)` otherwise; the particular case holds for a qtype=A query on a
record with canonical set, no INET4 hosts and no Tor hosts (a Tor host would
make the dispatch answer non-empty via the Tor TXT record). -/
theorem c3_fallback_answer (r : HSKRecord) (name : Str) (qtype : Nat)
    (naked : Bool) (hf : isFQDN name = true) (hl : labelCount name = 1)
    (hcan : optionAllb nameTargetWFb r.canonical = true) :
    (dispatchAnswer r name qtype true = some [] →
      ∃ msg, toDNS r name qtype naked = some msg ∧
        (r.canonical.isSome = true → toCNAME r name = some msg.answer) ∧
        (r.canonical = none → msg.answer = toSOA r name) ∧
        msg.authority = []) ∧
    (qtype = tyA → r.canonical.isSome = true →
      (∀ h ∈ r.hosts, h.isINET4 = false) →
      (∀ h ∈ r.hosts, h.isTor = false) →
      ∃ msg, toDNS r name qtype naked = some msg ∧
        toCNAME r name = some msg.answer) := by
  have main : dispatchAnswer r name qtype true = some [] →
      ∃ msg, toDNS r name qtype naked = some msg ∧
        (r.canonical.isSome = true → toCNAME r name = some msg.answer) ∧
        (r.canonical = none → msg.answer = toSOA r name) ∧
        msg.authority = [] := by
    intro hd
    cases hcc : r.canonical with
    | none =>
        refine ⟨{ qr := true, ad := true, aa := true,
                  answer := toSOA r name,
                  authority := [],
                  additional := dispatchAdditional r name qtype true,
                  edns := some (4096, true) }, ?_, ?_, ?_, rfl⟩
        · unfold toDNS
          simp [hf, hl, hd, hcc]
        · intro h; simp at h
        · intro _; rfl
    | some t =>
        have hname : t.isName = true := by
          rw [hcc] at hcan
          simp only [optionAllb, nameTargetWFb, Bool.and_eq_true] at hcan
          exact hcan.2
        have hcn : toCNAME r name =
            some [⟨name, tyCNAME, r.ttl, .cname (targetToDNS t)⟩] := by
          unfold toCNAME
          rw [hcc]
          simp [hname]
        refine ⟨{ qr := true, ad := true, aa := true,
                  answer := [⟨name, tyCNAME, r.ttl, .cname (targetToDNS t)⟩],
                  authority := [],
                  additional := dispatchAdditional r name qtype true,
                  edns := some (4096, true) }, ?_, ?_, ?_, rfl⟩
        · unfold toDNS
          simp [hf, hl, hd, hcc, hcn]
        · intro _; exact hcn
        · intro h; simp at h
  refine ⟨main, ?_⟩
  intro hq hc h4 htor
  have ha : dispatchAnswer r name qtype true = some [] := by
    subst hq
    unfold dispatchAnswer
    simp only [tyANY, tyA, tyAAAA]
    norm_num
    unfold toA
    have h1 : r.hosts.filterMap (fun h =>
        match h with
        | .inet4 a => some (⟨name, tyA, r.ttl, .a (ip4String a)⟩ : DNSRecord)
        | _ => none) = [] := by
      rw [List.filterMap_eq_nil_iff]
      intro h hh
      have hne := h4 h hh
      cases h <;> simp_all [Target.isINET4]
    have h2 : hasTor r = false := by
      unfold hasTor
      rw [List.any_eq_false]
      intro h hh
      simp [htor h hh]
    simp [h1, h2]
  obtain ⟨msg, hmsg, hansc, _, _⟩ := main ha
  exact ⟨msg, hmsg, hansc hc⟩

/-- Witness for C3 on a record with only a canonical name, at name `alice.`,
qtype A. -/
theorem c3_fallback_answer_witness :
    isFQDN (strBytes "alice.") = true ∧
      labelCount (strBytes "alice.") = 1 ∧
      optionAllb nameTargetWFb rCanonOnly.canonical = true ∧
      ((dispatchAnswer rCanonOnly (strBytes "alice.") tyA true = some [] →
        ∃ msg, toDNS rCanonOnly (strBytes "alice.") tyA true = some msg ∧
          (rCanonOnly.canonical.isSome = true →
            toCNAME rCanonOnly (strBytes "alice.") = some msg.answer) ∧
          (rCanonOnly.canonical = none →
            msg.answer = toSOA rCanonOnly (strBytes "alice.")) ∧
          msg.authority = []) ∧
      (tyA = tyA → rCanonOnly.canonical.isSome = true →
        (∀ h ∈ rCanonOnly.hosts, h.isINET4 = false) →
        (∀ h ∈ rCanonOnly.hosts, h.isTor = false) →
        ∃ msg, toDNS rCanonOnly (strBytes "alice.") tyA true = some msg ∧
          toCNAME rCanonOnly (strBytes "alice.") = some msg.answer)) :=
  ⟨by decide, by decide, by decide,
    c3_fallback_answer rCanonOnly (strBytes "alice.") tyA true (by decide)
      (by decide) (by decide)⟩

/-- Claim C4: the claim asserts `fromJSON(toJSON(r)) == r`, in particular
when `r.tls` is non-empty.  `TLS.toJSON` emits the certificate under the key
`certificate` and no `fingerprint` key, while `TLS.fromJSON` asserts
`typeof json.fingerprint === 'string'`, so the JSON round-trip of any record
with a TLS entry throws instead of returning the record.  This theorem
evaluates the model at such a record. -/
theorem c4_tls_json_roundtrip_fails :
    rLoneTLS.tls ≠ [] ∧
      tlsFromJSON (tlsToJSON ⟨strBytes "tcp", 443, 3, 1, 1, [1, 2]⟩) = none ∧
      recordFromJSON (recordToJSON rLoneTLS (strBytes "x")) = none := by
  decide

/-- Claim C9: every SOA synthesized by `toSOA` has serial 0, refresh 1800,
retry the record's ttl, expire 604800, minttl 86400; its primary NS is the
ns name of the first record of `toNS` on the tld when non-empty and the tld
itself otherwise, and its mbox is the mx name of the first record of `toMX`
on the tld when non-empty and the tld itself otherwise (both inner calls
pass no naked flag). -/
theorem c9_toSOA_fields (r : HSKRecord) (name : Str)
    (hf : isFQDN name = true) :
    toSOA r name =
      [⟨tldOf name, tySOA, r.ttl,
        .soa
          (match toNS r (tldOf name) false with
           | [] => tldOf name
           | rr :: _ => rdNsName rr.data)
          (match toMX r (tldOf name) false with
           | [] => tldOf name
           | rr :: _ => rdMxName rr.data)
          0 1800 r.ttl 604800 86400⟩] := by
  unfold toSOA
  rcases hns : toNS r (tldOf name) false with _ | ⟨rr, rest⟩ <;>
    rcases hmx : toMX r (tldOf name) false with _ | ⟨rr2, rest2⟩ <;>
      simp [hns, hmx]

/-- Witness for C9 on a record with an NS name and an SMTP service. -/
theorem c9_toSOA_fields_witness :
    isFQDN (strBytes "x.") = true ∧
      toSOA rSOAFull (strBytes "x.") =
        [⟨tldOf (strBytes "x."), tySOA, rSOAFull.ttl,
          .soa
            (match toNS rSOAFull (tldOf (strBytes "x.")) false with
             | [] => tldOf (strBytes "x.")
             | rr :: _ => rdNsName rr.data)
            (match toMX rSOAFull (tldOf (strBytes "x.")) false with
             | [] => tldOf (strBytes "x.")
             | rr :: _ => rdMxName rr.data)
            0 1800 rSOAFull.ttl 604800 86400⟩] :=
  ⟨by decide, c9_toSOA_fields rSOAFull (strBytes "x.") (by decide)⟩

/-- Claim C10: the naked parameter has no effect on `toDNS`: the
implementation forcibly sets `naked = true` internally, so the false and
true calls return the same message for every record, name and qtype. -/
theorem c10_naked_no_effect (r : HSKRecord) (name : Str) (qtype : Nat) :
    toDNS r name qtype false = toDNS r name qtype true := rfl

end Hsk

